import Mathlib

/-!
Verification model of the boost-pool accounting engine
(`state-chain/pallets/cf-ingress-egress/src/boost_pool.rs`).

Amounts are modelled as `Nat` with explicit `u128` saturation/overflow
handling (`U128MAX`); `BTreeMap`s are modelled as key-sorted association
lists, which matches the iteration order the source relies on.
-/

/-- Maximum value of Rust's `u128`. -/
def U128MAX : Nat := 2 ^ 128 - 1

/-- SCALE_FACTOR from boost_pool.rs: scaled amounts represent 1/1000 of a
chain amount unit. -/
def SCALE_FACTOR : Nat := 1000

/-- Modelled from the spec: `cf_primitives::BASIS_POINTS_PER_MILLION` (the
crate defining it is not under src/). It is the fixed multiplier converting
basis points (1/10_000) to parts per million, hence 100. -/
def BASIS_POINTS_PER_MILLION : Nat := 100

/-- Saturating conversion into `u128` range. -/
def sat128 (x : Nat) : Nat := min x U128MAX

/-- Rust `u128::saturating_add` (`ScaledAmount::saturating_add` /
`saturating_accrue`). -/
def satAdd (a b : Nat) : Nat := sat128 (a + b)

/-- Rust `u128::checked_sub` (`ScaledAmount::checked_sub`). -/
def checkedSub (a b : Nat) : Option Nat := if b ≤ a then some (a - b) else none

/-- Saturating fold used to model repeated `saturating_accrue` into an
accumulator (`total_contributed`, `to_receive_recorded`, `amount_credited`). -/
def satSum (l : List Nat) : Nat := l.foldl satAdd 0

/-- Rounding mode of `sp_arithmetic`, restricted to the two modes used by
`use_funds_for_boosting`. -/
inductive MulRounding where
| down : MulRounding
| up : MulRounding
deriving Repr, DecidableEq

/-- Model of `sp_runtime::helpers_128bit::multiply_by_rational_with_rounding
(a, b, c, r)`: computes `a * b / c` exactly (256-bit intermediate), rounded
down or up, returning `none` when `c = 0` or the result exceeds `u128`. -/
def mulByRationalWithRounding (a b c : Nat) (r : MulRounding) : Option Nat :=
  if c = 0 then none
  else
    let q := match r with
      | .down => a * b / c
      | .up => (a * b + c - 1) / c
    if U128MAX < q then none else some q

/-- Model of `sp_arithmetic` per-thing multiplication `parts/acc * x`
(`Permill * u128`, `Percent * u128`): rounds to the nearest whole number,
with ties rounded down (`Rounding::NearestPrefDown`). The computation in the
source never overflows because `parts ≤ acc` after `from_parts` clamping. -/
def perThingMulNearest (acc parts x : Nat) : Nat :=
  let num := parts * x
  num / acc + (if acc / 2 < num % acc then 1 else 0)

/-- Model of `Permill::from_parts`: clamps to one million parts. -/
def permillFromParts (p : Nat) : Nat := min p 1000000

/-- Model of `Percent::from_parts`/`from_percent`: clamps to 100 parts. -/
def percentFromParts (p : Nat) : Nat := min p 100

/-- `ScaledAmount::from_chain_amount`: saturate into u128, then multiply by
`SCALE_FACTOR` with saturation. -/
def fromChainAmount (a : Nat) : Nat := sat128 (sat128 a * SCALE_FACTOR)

/-- `ScaledAmount::into_chain_amount`: integer division by `SCALE_FACTOR`
(the result always fits the chain amount, modelled as u128). -/
def intoChainAmount (v : Nat) : Nat := v / SCALE_FACTOR

/-- `fee_from_boosted_amount(amount_to_boost, fee_bps)` from boost_pool.rs:
`Permill::from_parts(fee_bps * BASIS_POINTS_PER_MILLION) * amount`. -/
def feeFromBoostedAmount (amountToBoost feeBps : Nat) : Nat :=
  perThingMulNearest 1000000 (permillFromParts (feeBps * BASIS_POINTS_PER_MILLION)) amountToBoost

/-- `fee_from_provided_amount(provided_amount, fee_bps)` from boost_pool.rs:
`boosted = provided * 10_000 / (10_000 - fee_bps)` (u16 saturating
subtraction, rational multiply rounding down), then
`fee = boosted - provided` via `checked_sub`. -/
def feeFromProvidedAmount (providedAmount feeBps : Nat) : Except String Nat :=
  let inverseFee := 10000 - feeBps
  match mulByRationalWithRounding providedAmount 10000 inverseFee .down with
  | none => .error "invalid fee"
  | some boostedAmount =>
    if boostedAmount < providedAmount then .error "invalid fee"
    else .ok (boostedAmount - providedAmount)

/-- `OwedAmount` (scaled): total owed to a booster for one boost and the fee
portion of it. -/
structure OwedAmount where
  total : Nat
  fee : Nat
deriving Repr, DecidableEq

/-- Association-list lookup (model of `BTreeMap::get`). -/
def alistLookup {α : Type} (m : List (Nat × α)) (k : Nat) : Option α :=
  match m with
  | [] => none
  | (k1, v) :: rest => if k = k1 then some v else alistLookup rest k

/-- Sorted insert-or-replace (model of `BTreeMap::insert` /
`entry().or_default()` updates on a key-sorted list). -/
def alistInsert {α : Type} (m : List (Nat × α)) (k : Nat) (v : α) : List (Nat × α) :=
  match m with
  | [] => [(k, v)]
  | (k1, v1) :: rest =>
    if k < k1 then (k, v) :: (k1, v1) :: rest
    else if k = k1 then (k, v) :: rest
    else (k1, v1) :: alistInsert rest k v

/-- Removal of the binding for a key (model of `BTreeMap::remove`). -/
def alistErase {α : Type} (m : List (Nat × α)) (k : Nat) : List (Nat × α) :=
  match m with
  | [] => []
  | (k1, v1) :: rest => if k = k1 then rest else (k1, v1) :: alistErase rest k

/-- In-place update of the value bound to a key, if present (model of
`BTreeMap::get_mut`). -/
def alistUpdate {α : Type} (m : List (Nat × α)) (k : Nat) (f : α → α) : List (Nat × α) :=
  match m with
  | [] => []
  | (k1, v1) :: rest =>
    if k1 = k then (k1, f v1) :: rest else (k1, v1) :: alistUpdate rest k f

/-- Removal of an element from a sorted `Nat` list (model of
`BTreeSet::remove`). -/
def listEraseNat (l : List Nat) (x : Nat) : List Nat :=
  match l with
  | [] => []
  | y :: rest => if y = x then rest else y :: listEraseNat rest x

/-- The boost pool state (`BoostPool<AccountId, C>`), with account ids and
deposit ids modelled as `Nat` and all amounts in scaled units. -/
structure Pool where
  feeBps : Nat
  available : Nat
  amounts : List (Nat × Nat)
  pendingBoosts : List (Nat × List (Nat × OwedAmount))
  pendingWithdrawals : List (Nat × List Nat)
deriving Repr, DecidableEq

/-- `BoostPool::new(fee_bps)`. -/
def newPool (feeBps : Nat) : Pool :=
  { feeBps := feeBps, available := 0, amounts := [], pendingBoosts := [], pendingWithdrawals := [] }

/-- One step of nanorand's WyRand generator: the 64-bit output produced for a
given seed (`WyRand::new_seed(seed).rand()`). -/
def wyrandU64 (seed : Nat) : Nat :=
  let s := (seed + 0xa0761d6478bd642f) % (2 ^ 64)
  let t := s * Nat.xor s 0xe7037ed1a0b428db
  (Nat.xor (t / 2 ^ 64) t) % (2 ^ 64)

/-- Deterministic lucky-booster index: model of nanorand's
`WyRand::new_seed(deposit_id).generate_range(0..n)` (Lemire multiply-shift on
one WyRand draw; for the empty range `0..0` nanorand treats the bounds as
`0..=0` and the result is 0). The spec stipulates only that this is a
deterministic function of the deposit id and the number of active boosters. -/
def luckyIndex (seed n : Nat) : Nat :=
  if n = 0 then 0 else wyrandU64 seed * n / 2 ^ 64

/-- Per-booster principal contribution inside `use_funds_for_boosting`:
`multiply_by_rational_with_rounding(required, amount, total, Up)` with
`unwrap_or_default`. -/
def boostContribution (required total a : Nat) : Nat :=
  (mulByRationalWithRounding required a total .up).getD 0

/-- Per-booster amount to receive inside `use_funds_for_boosting`:
`multiply_by_rational_with_rounding(amount_to_receive, amount, total, Down)`
with `unwrap_or_default`. -/
def boostToReceive (amountToReceive total a : Nat) : Nat :=
  (mulByRationalWithRounding amountToReceive a total .down).getD 0

/-- The `amounts` map after the contribution-deduction loop of
`use_funds_for_boosting` (`amount.saturating_reduce(booster_contribution)`). -/
def boostAmountsAfter (p : Pool) (required : Nat) : List (Nat × Nat) :=
  p.amounts.map fun ba => (ba.1, ba.2 - boostContribution required p.available ba.2)

/-- The `boosters_to_receive` map built by the loop of
`use_funds_for_boosting` (before the lucky-booster adjustment). -/
def boostersToReceive (p : Pool) (required amountToReceive : Nat) : List (Nat × OwedAmount) :=
  p.amounts.map fun ba =>
    let r := boostToReceive amountToReceive p.available ba.2
    (ba.1, { total := r, fee := r - boostContribution required p.available ba.2 })

/-- `total_contributed` accumulated by the loop (saturating accrue). -/
def totalContributed (p : Pool) (required : Nat) : Nat :=
  satSum (p.amounts.map fun ba => boostContribution required p.available ba.2)

/-- `to_receive_recorded` accumulated by the loop (saturating accrue). -/
def toReceiveRecorded (p : Pool) (required amountToReceive : Nat) : Nat :=
  satSum (p.amounts.map fun ba => boostToReceive amountToReceive p.available ba.2)

/-- `excess_contributed`: how much the rounded-up contributions exceed the
required amount (saturating subtraction). -/
def boostExcess (p : Pool) (required : Nat) : Nat :=
  totalContributed p required - required

/-- `remaining_to_receive`: how much the rounded-down receive amounts fall
short of `amount_to_receive` (saturating subtraction). -/
def boostRemaining (p : Pool) (required amountToReceive : Nat) : Nat :=
  amountToReceive - toReceiveRecorded p required amountToReceive

/-- The `amounts` map after the lucky booster (if any) has been credited
with the contribution excess (`self.amounts.iter_mut().nth(lucky_index)`). -/
def boostAmountsFinal (p : Pool) (depositId required : Nat) : List (Nat × Nat) :=
  match (boostAmountsAfter p required)[luckyIndex depositId p.amounts.length]? with
  | some lucky =>
    (boostAmountsAfter p required).set (luckyIndex depositId p.amounts.length)
      (lucky.1, satAdd lucky.2 (boostExcess p required))
  | none => boostAmountsAfter p required

/-- The `boosters_to_receive` map after the lucky booster (if any) has had
the remaining amount added to both total and fee. -/
def boostEntryFinal (p : Pool) (depositId required amountToReceive : Nat) :
    List (Nat × OwedAmount) :=
  match (boostAmountsAfter p required)[luckyIndex depositId p.amounts.length]? with
  | some lucky =>
    alistUpdate (boostersToReceive p required amountToReceive) lucky.1 fun o =>
      { total := satAdd o.total (boostRemaining p required amountToReceive),
        fee := satAdd o.fee (boostRemaining p required amountToReceive) }
  | none => boostersToReceive p required amountToReceive

/-- `use_funds_for_boosting(deposit_id, required_amount, boost_pool_fee)`:
returns the result together with the pool state after the call. Note that
the available amount and the per-booster amounts are mutated before the
`try_insert` duplicate-id check, exactly as in the source. -/
def useFundsForBoosting (p : Pool) (depositId requiredAmount boostPoolFee : Nat) :
    Except String Unit × Pool :=
  match checkedSub p.available requiredAmount with
  | none => (.error "Not enough available funds", p)
  | some availableAfter =>
    let amountToReceive := satAdd requiredAmount boostPoolFee
    match alistLookup p.pendingBoosts depositId with
    | some _ =>
      (.error "Pending boost id already exists",
       { p with available := availableAfter,
                amounts := boostAmountsFinal p depositId requiredAmount })
    | none =>
      (.ok (),
       { p with available := availableAfter,
                amounts := boostAmountsFinal p depositId requiredAmount,
                pendingBoosts := alistInsert p.pendingBoosts depositId
                  (boostEntryFinal p depositId requiredAmount amountToReceive) })

/-- The scaled boost request: `ScaledAmount::from_chain_amount(amount_to_boost)`. -/
def scaledRequest (amountToBoost : Nat) : Nat := fromChainAmount amountToBoost

/-- `full_amount_fee` in `provide_funds_for_boosting`. -/
def fullFeeOf (p : Pool) (amountToBoost : Nat) : Nat :=
  feeFromBoostedAmount (scaledRequest amountToBoost) p.feeBps

/-- `required_amount` in `provide_funds_for_boosting`
(`saturating_sub` of the full fee from the scaled request). -/
def requiredOf (p : Pool) (amountToBoost : Nat) : Nat :=
  scaledRequest amountToBoost - fullFeeOf p amountToBoost

/-- The `(provided_amount, fee_amount)` selection of
`provide_funds_for_boosting`: full coverage when the pool has enough
available liquidity, otherwise all of `available_amount` with the fee
recomputed by `fee_from_provided_amount`. -/
def providedAndFee (p : Pool) (amountToBoost : Nat) : Except String (Nat × Nat) :=
  if requiredOf p amountToBoost ≤ p.available then
    .ok (requiredOf p amountToBoost, fullFeeOf p amountToBoost)
  else
    match feeFromProvidedAmount p.available p.feeBps with
    | .error e => .error e
    | .ok fee => .ok (p.available, fee)

/-- The boost-pool fee after the network fee deduction:
`fee_amount.saturating_sub(network_fee_deduction * fee_amount)`. -/
def boostPoolFeeFrom (feeAmount pct : Nat) : Nat :=
  feeAmount - perThingMulNearest 100 (percentFromParts pct) feeAmount

/-- `provide_funds_for_boosting(deposit_id, amount_to_boost,
network_fee_deduction)`: returns `(boosted_amount, boost_fee)` in chain
units together with the pool state after the call. -/
def provideFundsForBoosting (p : Pool) (depositId amountToBoost pct : Nat) :
    Except String (Nat × Nat) × Pool :=
  match providedAndFee p amountToBoost with
  | .error e => (.error e, p)
  | .ok pf =>
    match useFundsForBoosting p depositId pf.1 (boostPoolFeeFrom pf.2 pct) with
    | (.error e, p1) => (.error e, p1)
    | (.ok _, p1) =>
      (.ok (intoChainAmount (satAdd pf.1 pf.2), intoChainAmount pf.2), p1)

/-- `add_funds_inner(booster_id, added_amount)`: clears any pending
withdrawal, accrues the booster's entry and the available amount. -/
def addFundsInner (p : Pool) (boosterId addedAmount : Nat) : Pool :=
  { p with
    pendingWithdrawals := alistErase p.pendingWithdrawals boosterId,
    amounts := alistInsert p.amounts boosterId
      (satAdd ((alistLookup p.amounts boosterId).getD 0) addedAmount),
    available := satAdd p.available addedAmount }

/-- `add_funds(booster_id, amount)` (chain units). -/
def addFunds (p : Pool) (boosterId amount : Nat) : Pool :=
  addFundsInner p boosterId (fromChainAmount amount)

/-- `stop_boosting(booster_id)`: removes the booster's active amount,
reduces the available amount, and records the pending deposits the booster
is still owed from. The error string stands for
`Error::AccountNotFoundInBoostPool`. -/
def stopBoosting (p : Pool) (boosterId : Nat) :
    Except String (Nat × List Nat) × Pool :=
  match alistLookup p.amounts boosterId with
  | none => (.error "AccountNotFoundInBoostPool", p)
  | some boosterActiveAmount =>
    let pendingDeposits :=
      (p.pendingBoosts.filter fun e => (alistLookup e.2 boosterId).isSome).map Prod.fst
    let pw :=
      if pendingDeposits = [] then p.pendingWithdrawals
      else alistInsert p.pendingWithdrawals boosterId pendingDeposits
    (.ok (intoChainAmount boosterActiveAmount, pendingDeposits),
     { p with amounts := alistErase p.amounts boosterId,
              available := p.available - boosterActiveAmount,
              pendingWithdrawals := pw })

/-- `DepositFinalisationOutcomeForPool` (chain units). -/
structure FinalisationOutcome where
  unlockedFunds : List (Nat × Nat)
  amountCredited : Nat
deriving Repr, DecidableEq

/-- One iteration of the loop in `process_deposit_as_finalised`: route the
booster's owed total to unlocked funds (if withdrawing) or back into the
pool, and accrue the credited amount. -/
def finaliseStep (depositId : Nat) (acc : Pool × List (Nat × Nat) × Nat)
    (entry : Nat × OwedAmount) : Pool × List (Nat × Nat) × Nat :=
  let pool := acc.1
  let routed :=
    match alistLookup pool.pendingWithdrawals entry.1 with
    | some pendingDeposits =>
      let pd := listEraseNat pendingDeposits depositId
      let pw :=
        if pd = [] then alistErase pool.pendingWithdrawals entry.1
        else alistInsert pool.pendingWithdrawals entry.1 pd
      ({ pool with pendingWithdrawals := pw },
       acc.2.1 ++ [(entry.1, intoChainAmount entry.2.total)])
    | none => (addFundsInner pool entry.1 entry.2.total, acc.2.1)
  (routed.1, routed.2, satAdd acc.2.2 entry.2.total)

/-- `process_deposit_as_finalised(deposit_id)`: returns the pool state after
the call and the finalisation outcome. -/
def processDepositAsFinalised (p : Pool) (depositId : Nat) : Pool × FinalisationOutcome :=
  match alistLookup p.pendingBoosts depositId with
  | none => (p, { unlockedFunds := [], amountCredited := 0 })
  | some contributions =>
    let start : Pool × List (Nat × Nat) × Nat :=
      ({ p with pendingBoosts := alistErase p.pendingBoosts depositId }, [], 0)
    let res := contributions.foldl (finaliseStep depositId) start
    (res.1, { unlockedFunds := res.2.1, amountCredited := intoChainAmount res.2.2 })

/-- `process_deposit_as_lost(deposit_id)`: removes the pending boost without
crediting anyone, prunes pending withdrawals, returns the number of
boosters affected. -/
def processDepositAsLost (p : Pool) (depositId : Nat) : Pool × Nat :=
  match alistLookup p.pendingBoosts depositId with
  | none => (p, 0)
  | some contributions =>
    let pw := contributions.foldl (fun pw e =>
      match alistLookup pw e.1 with
      | some pendingDeposits =>
        let pd := listEraseNat pendingDeposits depositId
        if pd = [] then alistErase pw e.1 else alistInsert pw e.1 pd
      | none => pw) p.pendingWithdrawals
    ({ p with pendingBoosts := alistErase p.pendingBoosts depositId,
              pendingWithdrawals := pw },
     contributions.length)

/-- The public operations of the pool, as an inductive alphabet of calls. -/
inductive Op where
| addFunds (boosterId amount : Nat) : Op
| provideFunds (depositId amountToBoost pct : Nat) : Op
| finalise (depositId : Nat) : Op
| lost (depositId : Nat) : Op
| stopBoosting (boosterId : Nat) : Op
deriving Repr, DecidableEq

/-- Apply one public operation, discarding its output. -/
def applyOp (p : Pool) (op : Op) : Pool :=
  match op with
  | .addFunds b a => addFunds p b a
  | .provideFunds id amt pct => (provideFundsForBoosting p id amt pct).2
  | .finalise id => (processDepositAsFinalised p id).1
  | .lost id => (processDepositAsLost p id).1
  | .stopBoosting b => (stopBoosting p b).2

/-- Run a sequence of public operations. -/
def run (p : Pool) (ops : List Op) : Pool := ops.foldl applyOp p

/-- The error (if any) reported by one public operation. -/
def opError (p : Pool) (op : Op) : Option String :=
  match op with
  | .provideFunds id amt pct =>
    match (provideFundsForBoosting p id amt pct).1 with
    | .error e => some e
    | .ok _ => none
  | .stopBoosting b =>
    match (stopBoosting p b).1 with
    | .error e => some e
    | .ok _ => none
  | _ => none

/-- Sum of the values of an association list (mathematical, non-saturating). -/
def sumVals (m : List (Nat × Nat)) : Nat := (m.map Prod.snd).sum

/-- Sum of the owed totals of a pending-boost entry. -/
def sumTotals (entry : List (Nat × OwedAmount)) : Nat :=
  (entry.map fun e => e.2.total).sum

/-- Sum of the owed fees of a pending-boost entry. -/
def sumFees (entry : List (Nat × OwedAmount)) : Nat :=
  (entry.map fun e => e.2.fee).sum

/-- Strictly increasing keys (the representation invariant of the
`BTreeMap` model). -/
def KeysSorted {α : Type} (m : List (Nat × α)) : Prop :=
  m.Pairwise fun x y => x.1 < y.1

/-- The pool invariant used throughout: conservation, the u128 range bound
on the available amount, and sortedness of the amounts map. -/
def PoolInv (p : Pool) : Prop :=
  p.available = sumVals p.amounts ∧ p.available ≤ U128MAX ∧ KeysSorted p.amounts

instance {α : Type} (m : List (Nat × α)) : Decidable (KeysSorted m) := by
  unfold KeysSorted; infer_instance

instance (p : Pool) : Decidable (PoolInv p) := by
  unfold PoolInv; infer_instance

/-- Absence of saturation for one operation on a given state: the additions
performed by `add_funds` and by finalisation credits stay within u128.
All other operations never clip under the pool invariant. -/
def NoSatOp (p : Pool) (op : Op) : Prop :=
  match op with
  | .addFunds _ a => p.available + fromChainAmount a ≤ U128MAX
  | .finalise id =>
    p.available + sumTotals ((alistLookup p.pendingBoosts id).getD []) ≤ U128MAX
  | _ => True

instance (p : Pool) (op : Op) : Decidable (NoSatOp p op) := by
  unfold NoSatOp; cases op <;> infer_instance

/-- Absence of saturation along a whole trace. -/
def NoSatTrace : Pool → List Op → Prop
  | _, [] => True
  | p, op :: ops => NoSatOp p op ∧ NoSatTrace (applyOp p op) ops

instance : (p : Pool) → (ops : List Op) → Decidable (NoSatTrace p ops)
  | _, [] => .isTrue trivial
  | p, op :: ops =>
    have : Decidable (NoSatOp p op ∧ NoSatTrace (applyOp p op) ops) :=
      @instDecidableAnd _ _ _ (instDecidableNoSatTrace (applyOp p op) ops)
    this

/-- spec-modelled: the crediting total asserted by the specification for
`process_deposit_as_finalised` — the owed totals of only those boosters
WITHOUT a pending withdrawal — to be compared with the implementation's
`amount_credited_to_boosters`. -/
def sumNonWithdrawingTotals (p : Pool) (entry : List (Nat × OwedAmount)) : Nat :=
  satSum ((entry.filter fun e => (alistLookup p.pendingWithdrawals e.1).isNone).map
    fun e => e.2.total)

/-- A pool with one pending boost (deposit id 7) owed to boosters 1 and 2,
where booster 2 has a pending withdrawal covering that deposit. -/
def c9Pool : Pool :=
  { feeBps := 0
    available := 0
    amounts := []
    pendingBoosts := [(7, [(1, ⟨500000, 0⟩), (2, ⟨500000, 0⟩)])]
    pendingWithdrawals := [(2, [7])] }

/-- A pool of seven boosters holding one chain unit each at 100 bps. -/
def c6Pool7 : Pool :=
  run (newPool 100) [Op.addFunds 1 1, Op.addFunds 2 1, Op.addFunds 3 1,
    Op.addFunds 4 1, Op.addFunds 5 1, Op.addFunds 6 1, Op.addFunds 7 1]

/-! ### Arithmetic helper lemmas -/

theorem sat128_eq {x : Nat} (h : x ≤ U128MAX) : sat128 x = x := by
  simp [sat128, Nat.min_eq_left h]

theorem sat128_le (x : Nat) : sat128 x ≤ U128MAX := Nat.min_le_right _ _

theorem satAdd_eq {a b : Nat} (h : a + b ≤ U128MAX) : satAdd a b = a + b := sat128_eq h

theorem satAdd_le (a b : Nat) : satAdd a b ≤ U128MAX := sat128_le _

theorem checkedSub_eq_some {a b : Nat} (h : b ≤ a) : checkedSub a b = some (a - b) := by
  simp [checkedSub, h]

theorem satSum_from (l : List Nat) (acc : Nat) (h : acc + l.sum ≤ U128MAX) :
    l.foldl satAdd acc = acc + l.sum := by
  induction l generalizing acc with
  | nil => simp
  | cons x xs ih =>
    simp only [List.foldl_cons, List.sum_cons] at *
    rw [satAdd_eq (by omega), ih (acc + x) (by omega)]
    omega

theorem satSum_eq {l : List Nat} (h : l.sum ≤ U128MAX) : satSum l = l.sum := by
  simpa using satSum_from l 0 (by omega)

theorem ceilDiv_le {req T a : Nat} (hT : 0 < T) (h : req ≤ T) : (req * a + T - 1) / T ≤ a := by
  rw [Nat.div_le_iff_le_mul_add_pred hT]
  have h3 : req * a ≤ T * a := Nat.mul_le_mul_right a h
  omega

theorem le_mul_ceilDiv (x T : Nat) (hT : 0 < T) : x ≤ T * ((x + T - 1) / T) := by
  have h1 := Nat.div_add_mod (x + T - 1) T
  have h2 : (x + T - 1) % T < T := Nat.mod_lt _ hT
  generalize T * ((x + T - 1) / T) = Q at h1 ⊢
  omega

/-! ### Lemmas about the per-booster rounding primitives -/

theorem boostContribution_le {req T a : Nat} (h : req ≤ T) : boostContribution req T a ≤ a := by
  unfold boostContribution mulByRationalWithRounding
  rcases Nat.eq_zero_or_pos T with h0 | hT
  · simp [h0]
  · have hne : T ≠ 0 := by omega
    simp only [hne, if_false]
    split
    · simp
    · simpa using ceilDiv_le hT h

theorem boostContribution_exact {req T a : Nat} (hT : 0 < T) (hreq : req ≤ T) (ha : a ≤ T)
    (hM : T ≤ U128MAX) : boostContribution req T a = (req * a + T - 1) / T := by
  unfold boostContribution mulByRationalWithRounding
  have hne : T ≠ 0 := by omega
  have hle : (req * a + T - 1) / T ≤ a := ceilDiv_le hT hreq
  have hno : ¬ U128MAX < (req * a + T - 1) / T := by omega
  simp [hne, hno]

theorem mul_le_mul_boostContribution {req T a : Nat} (hreq : req ≤ T) (ha : a ≤ T)
    (hM : T ≤ U128MAX) : req * a ≤ T * boostContribution req T a := by
  rcases Nat.eq_zero_or_pos T with h0 | hT
  · have : req = 0 := by omega
    simp [this]
  · rw [boostContribution_exact hT hreq ha hM]
    exact le_mul_ceilDiv (req * a) T hT

theorem boostToReceive_exact {A T a : Nat} (hT : 0 < T) (ha : a ≤ T) (hA : A ≤ U128MAX) :
    boostToReceive A T a = A * a / T := by
  unfold boostToReceive mulByRationalWithRounding
  have hne : T ≠ 0 := by omega
  have h1 : A * a / T ≤ A := by
    calc A * a / T ≤ A * T / T := Nat.div_le_div_right (Nat.mul_le_mul_left A ha)
    _ = A := Nat.mul_div_cancel A hT
  have hno : ¬ U128MAX < A * a / T := by omega
  simp [hne, hno]

theorem mul_boostToReceive_le (A T a : Nat) : T * boostToReceive A T a ≤ A * a := by
  unfold boostToReceive mulByRationalWithRounding
  rcases Nat.eq_zero_or_pos T with h0 | hT
  · simp [h0]
  · have hne : T ≠ 0 := by omega
    simp only [hne, if_false]
    split
    · simp
    · simp only [Option.getD_some]
      calc T * (A * a / T) = A * a / T * T := Nat.mul_comm _ _
      _ ≤ A * a := Nat.div_mul_le_self _ _

theorem boostToReceive_zero_total (A a : Nat) : boostToReceive A 0 a = 0 := by
  simp [boostToReceive, mulByRationalWithRounding]

/-! ### Sum lemmas over the amounts list -/

theorem elem_snd_le_sumVals {l : List (Nat × Nat)} {ba : Nat × Nat} (h : ba ∈ l) :
    ba.2 ≤ sumVals l := by
  induction l with
  | nil => cases h
  | cons x xs ih =>
    rcases List.mem_cons.mp h with h2 | h2
    · subst h2
      simp only [sumVals, List.map_cons, List.sum_cons]
      omega
    · have := ih h2
      simp only [sumVals, List.map_cons, List.sum_cons] at *
      omega

theorem sum_contrib_le {req T : Nat} (l : List (Nat × Nat)) (h : req ≤ T) :
    (l.map fun ba => boostContribution req T ba.2).sum ≤ sumVals l := by
  induction l with
  | nil => simp [sumVals]
  | cons x xs ih =>
    have hx : boostContribution req T x.2 ≤ x.2 := boostContribution_le h
    simp only [sumVals, List.map_cons, List.sum_cons] at *
    omega

theorem sum_mul_contrib {req T : Nat} (l : List (Nat × Nat)) (hreq : req ≤ T)
    (hM : T ≤ U128MAX) (hel : ∀ ba ∈ l, ba.2 ≤ T) :
    req * sumVals l ≤ T * (l.map fun ba => boostContribution req T ba.2).sum := by
  induction l with
  | nil => simp [sumVals]
  | cons x xs ih =>
    have hx : req * x.2 ≤ T * boostContribution req T x.2 :=
      mul_le_mul_boostContribution hreq (hel x (by simp)) hM
    have hxs := ih fun ba hba => hel ba (by simp [hba])
    simp only [sumVals, List.map_cons, List.sum_cons] at *
    calc req * (x.2 + (xs.map Prod.snd).sum)
        = req * x.2 + req * (xs.map Prod.snd).sum := by ring
    _ ≤ T * boostContribution req T x.2 + T * (xs.map fun ba => boostContribution req T ba.2).sum := by
        omega
    _ = T * (boostContribution req T x.2 + (xs.map fun ba => boostContribution req T ba.2).sum) := by
        ring

theorem sum_contrib_ge {req : Nat} (l : List (Nat × Nat)) (hreq : req ≤ sumVals l)
    (hM : sumVals l ≤ U128MAX) :
    req ≤ (l.map fun ba => boostContribution req (sumVals l) ba.2).sum := by
  rcases Nat.eq_zero_or_pos (sumVals l) with h0 | hT
  · omega
  · have hel : ∀ ba ∈ l, ba.2 ≤ sumVals l := fun ba hba => elem_snd_le_sumVals hba
    have := sum_mul_contrib l hreq hM hel
    have h2 : req * sumVals l = sumVals l * req := Nat.mul_comm _ _
    exact Nat.le_of_mul_le_mul_left (by omega) hT

theorem sum_mul_recv (A T : Nat) (l : List (Nat × Nat)) :
    T * (l.map fun ba => boostToReceive A T ba.2).sum ≤ A * sumVals l := by
  induction l with
  | nil => simp [sumVals]
  | cons x xs ih =>
    have hx := mul_boostToReceive_le A T x.2
    simp only [sumVals, List.map_cons, List.sum_cons] at *
    calc T * (boostToReceive A T x.2 + (xs.map fun ba => boostToReceive A T ba.2).sum)
        = T * boostToReceive A T x.2 + T * (xs.map fun ba => boostToReceive A T ba.2).sum := by
          ring
    _ ≤ A * x.2 + A * (xs.map Prod.snd).sum := Nat.add_le_add hx ih
    _ = A * (x.2 + (xs.map Prod.snd).sum) := by ring

theorem sum_recv_le {A T : Nat} (l : List (Nat × Nat)) (hsum : sumVals l = T) :
    (l.map fun ba => boostToReceive A T ba.2).sum ≤ A := by
  rcases Nat.eq_zero_or_pos T with h0 | hT
  · have hz : ∀ x ∈ l.map fun ba => boostToReceive A T ba.2, x = 0 := by
      intro x hx
      rcases List.mem_map.mp hx with ⟨ba, _, rfl⟩
      rw [h0]
      exact boostToReceive_zero_total A ba.2
    rw [List.sum_eq_zero hz]
    omega
  · have key := sum_mul_recv A T l
    rw [hsum] at key
    have h2 : A * T = T * A := Nat.mul_comm _ _
    exact Nat.le_of_mul_le_mul_left (by omega) hT

theorem sumVals_map_sub {req T : Nat} (l : List (Nat × Nat)) (h : req ≤ T) :
    sumVals (l.map fun ba => (ba.1, ba.2 - boostContribution req T ba.2))
      + (l.map fun ba => boostContribution req T ba.2).sum = sumVals l := by
  induction l with
  | nil => simp [sumVals]
  | cons x xs ih =>
    have hx : boostContribution req T x.2 ≤ x.2 := boostContribution_le h
    simp only [sumVals, List.map_cons, List.sum_cons] at *
    omega

/-! ### Association-list lemmas -/

theorem sumVals_set {l : List (Nat × Nat)} {i k v : Nat} (w : Nat)
    (h : l[i]? = some (k, v)) :
    sumVals (l.set i (k, w)) + v = sumVals l + w := by
  induction l generalizing i with
  | nil => simp at h
  | cons x xs ih =>
    cases i with
    | zero =>
      simp only [List.getElem?_cons_zero, Option.some_inj] at h
      subst h
      simp only [List.set_cons_zero, sumVals, List.map_cons, List.sum_cons]
      omega
    | succ n =>
      simp only [List.getElem?_cons_succ] at h
      have := ih h
      simp only [List.set_cons_succ, sumVals, List.map_cons, List.sum_cons]
      simp only [sumVals] at this
      omega

theorem mem_of_getElemOpt {α : Type} {l : List α} {i : Nat} {x : α}
    (h : l[i]? = some x) : x ∈ l := by
  induction l generalizing i with
  | nil => simp at h
  | cons y ys ih =>
    cases i with
    | zero =>
      simp only [List.getElem?_cons_zero, Option.some_inj] at h
      simp [h]
    | succ n =>
      simp only [List.getElem?_cons_succ] at h
      simp [ih h]

theorem getElem?_snd_le_sumVals {l : List (Nat × Nat)} {i k v : Nat}
    (h : l[i]? = some (k, v)) : v ≤ sumVals l := by
  have hmem : (k, v) ∈ l := mem_of_getElemOpt h
  exact elem_snd_le_sumVals hmem

theorem lookup_le_sumVals {m : List (Nat × Nat)} {k a : Nat}
    (h : alistLookup m k = some a) : a ≤ sumVals m := by
  induction m with
  | nil => simp [alistLookup] at h
  | cons x xs ih =>
    simp only [alistLookup] at h
    split at h
    · simp only [Option.some_inj] at h
      subst h
      simp only [sumVals, List.map_cons, List.sum_cons]
      omega
    · have := ih h
      simp only [sumVals, List.map_cons, List.sum_cons]
      simp only [sumVals] at this
      omega

theorem sumVals_alistErase {m : List (Nat × Nat)} {k a : Nat}
    (h : alistLookup m k = some a) :
    sumVals (alistErase m k) + a = sumVals m := by
  induction m with
  | nil => simp [alistLookup] at h
  | cons x xs ih =>
    simp only [alistLookup, alistErase] at *
    split at h
    · next heq =>
      simp only [Option.some_inj] at h
      subst h
      simp [heq, sumVals]
      omega
    · next hne =>
      have := ih h
      simp only [if_neg hne, sumVals, List.map_cons, List.sum_cons]
      simp only [sumVals] at this
      omega

theorem alistLookup_none_of_lt {α : Type} {m : List (Nat × α)} {k : Nat}
    (h : ∀ e ∈ m, k < e.1) : alistLookup m k = none := by
  induction m with
  | nil => rfl
  | cons x xs ih =>
    have hx := h x (by simp)
    have hne : ¬ k = x.1 := by omega
    simp only [alistLookup, if_neg hne]
    exact ih fun e he => h e (by simp [he])

theorem sumVals_alistInsert {m : List (Nat × Nat)} (hs : KeysSorted m) (k v : Nat) :
    sumVals (alistInsert m k v) + (alistLookup m k).getD 0 = sumVals m + v := by
  induction m with
  | nil => simp [alistInsert, alistLookup, sumVals]
  | cons x xs ih =>
    have hs2 : KeysSorted xs := (List.pairwise_cons.mp hs).2
    have hall : ∀ e ∈ xs, x.1 < e.1 := (List.pairwise_cons.mp hs).1
    simp only [alistInsert]
    rcases Nat.lt_trichotomy k x.1 with hlt | heq | hgt
    · have hnone : alistLookup (x :: xs) k = none := by
        apply alistLookup_none_of_lt
        intro e he
        rcases List.mem_cons.mp he with rfl | he2
        · exact hlt
        · exact Nat.lt_trans hlt (hall e he2)
      simp only [if_pos hlt, hnone, Option.getD_none, sumVals, List.map_cons, List.sum_cons]
      omega
    · have h1 : ¬ k < x.1 := by omega
      have hlook : alistLookup (x :: xs) k = some x.2 := by
        simp [alistLookup, heq]
      simp only [if_neg h1, if_pos heq, hlook, Option.getD_some, sumVals, List.map_cons,
        List.sum_cons]
      omega
    · have h1 : ¬ k < x.1 := by omega
      have h2 : ¬ k = x.1 := by omega
      have := ih hs2
      have hlook : alistLookup (x :: xs) k = alistLookup xs k := by
        simp [alistLookup, h2]
      simp only [if_neg h1, if_neg h2, hlook, sumVals, List.map_cons, List.sum_cons]
      simp only [sumVals] at this
      omega

/-! ### Sortedness lemmas -/

theorem keysSorted_map {α β : Type} {m : List (Nat × α)} (g : Nat × α → β)
    (hs : KeysSorted m) : KeysSorted (m.map fun ba => (ba.1, g ba)) := by
  unfold KeysSorted at *
  rw [List.pairwise_map]
  exact hs

theorem mem_alistInsert {α : Type} {m : List (Nat × α)} {k : Nat} {v : α} {e : Nat × α}
    (h : e ∈ alistInsert m k v) : e ∈ m ∨ e.1 = k := by
  induction m with
  | nil =>
    simp only [alistInsert, List.mem_singleton] at h
    right
    rw [h]
  | cons x xs ih =>
    simp only [alistInsert] at h
    split at h
    · rcases List.mem_cons.mp h with rfl | h2
      · right; rfl
      · left; exact h2
    · split at h
      · rcases List.mem_cons.mp h with rfl | h2
        · right; rfl
        · left; simp [h2]
      · rcases List.mem_cons.mp h with rfl | h2
        · left; simp
        · rcases ih h2 with h3 | h3
          · left; simp [h3]
          · right; exact h3

theorem keysSorted_alistInsert {α : Type} {m : List (Nat × α)} (k : Nat) (v : α)
    (hs : KeysSorted m) : KeysSorted (alistInsert m k v) := by
  induction m with
  | nil => simp [alistInsert, KeysSorted]
  | cons x xs ih =>
    rcases List.pairwise_cons.mp hs with ⟨hhead, htail⟩
    simp only [alistInsert]
    split
    · next hlt =>
      refine List.pairwise_cons.mpr ⟨?_, hs⟩
      intro e he
      rcases List.mem_cons.mp he with rfl | h2
      · exact hlt
      · exact Nat.lt_trans hlt (hhead e h2)
    · split
      · next h1 heq =>
        refine List.pairwise_cons.mpr ⟨?_, htail⟩
        intro e he
        rw [heq]
        exact hhead e he
      · next h1 h2 =>
        refine List.pairwise_cons.mpr ⟨?_, ih htail⟩
        intro e he
        rcases mem_alistInsert he with h3 | h3
        · exact hhead e h3
        · rw [h3]
          omega

theorem alistErase_sublist {α : Type} (m : List (Nat × α)) (k : Nat) :
    (alistErase m k).Sublist m := by
  induction m with
  | nil => simp [alistErase]
  | cons x xs ih =>
    simp only [alistErase]
    split
    · exact (List.sublist_cons_self x xs)
    · exact List.Sublist.cons₂ x ih

theorem keysSorted_alistErase {α : Type} {m : List (Nat × α)} (k : Nat)
    (hs : KeysSorted m) : KeysSorted (alistErase m k) :=
  hs.sublist (alistErase_sublist m k)

theorem keysSorted_set {α : Type} {l : List (Nat × α)} {i k : Nat} {v : α} (w : α)
    (h : l[i]? = some (k, v)) (hs : KeysSorted l) : KeysSorted (l.set i (k, w)) := by
  induction l generalizing i with
  | nil => simp at h
  | cons x xs ih =>
    rcases List.pairwise_cons.mp hs with ⟨hhead, htail⟩
    cases i with
    | zero =>
      simp only [List.getElem?_cons_zero, Option.some_inj] at h
      subst h
      simp only [List.set_cons_zero]
      exact List.pairwise_cons.mpr ⟨fun e he => hhead e he, htail⟩
    | succ n =>
      simp only [List.getElem?_cons_succ] at h
      simp only [List.set_cons_succ]
      refine List.pairwise_cons.mpr ⟨?_, ih h htail⟩
      intro e he
      rcases List.mem_or_eq_of_mem_set he with he2 | he2
      · exact hhead e he2
      · have hmem := mem_of_getElemOpt h
        have := hhead _ hmem
        rw [he2]
        exact this

theorem alistLookup_of_getElemOpt {α : Type} {m : List (Nat × α)} {i k : Nat} {v : α}
    (hs : KeysSorted m) (h : m[i]? = some (k, v)) : alistLookup m k = some v := by
  induction m generalizing i with
  | nil => simp at h
  | cons x xs ih =>
    rcases List.pairwise_cons.mp hs with ⟨hhead, htail⟩
    cases i with
    | zero =>
      simp only [List.getElem?_cons_zero, Option.some_inj] at h
      subst h
      simp [alistLookup]
    | succ n =>
      simp only [List.getElem?_cons_succ] at h
      have hmem : (k, v) ∈ xs := mem_of_getElemOpt h
      have hlt := hhead _ hmem
      have hne : ¬ k = x.1 := by
        simp only at hlt
        omega
      simp only [alistLookup, if_neg hne]
      exact ih htail h

/-! ### Sums over owed-amount entries -/

theorem elem_total_le_sumTotals {entry : List (Nat × OwedAmount)} {e : Nat × OwedAmount}
    (h : e ∈ entry) : e.2.total ≤ sumTotals entry := by
  induction entry with
  | nil => cases h
  | cons x xs ih =>
    rcases List.mem_cons.mp h with h2 | h2
    · subst h2
      simp only [sumTotals, List.map_cons, List.sum_cons]
      omega
    · have := ih h2
      simp only [sumTotals, List.map_cons, List.sum_cons] at *
      omega

theorem sumBy_alistUpdate {α : Type} (g : α → Nat) {m : List (Nat × α)} {k : Nat}
    (f : α → α) {o : α} (h : alistLookup m k = some o) :
    ((alistUpdate m k f).map fun e => g e.2).sum + g o
      = (m.map fun e => g e.2).sum + g (f o) := by
  induction m with
  | nil => simp [alistLookup] at h
  | cons x xs ih =>
    by_cases heq : x.1 = k
    · have hk : k = x.1 := heq.symm
      rw [show alistLookup (x :: xs) k = some x.2 by
        obtain ⟨k1, v1⟩ := x
        simp only [alistLookup]
        simp only at hk
        simp [hk]] at h
      simp only [Option.some_inj] at h
      subst h
      obtain ⟨k1, v1⟩ := x
      simp only at heq
      simp only [alistUpdate, if_pos heq, List.map_cons, List.sum_cons]
      omega
    · have hk : ¬ k = x.1 := fun hh => heq hh.symm
      rw [show alistLookup (x :: xs) k = alistLookup xs k by
        obtain ⟨k1, v1⟩ := x
        simp only at hk
        simp [alistLookup, hk]] at h
      have := ih h
      obtain ⟨k1, v1⟩ := x
      simp only at heq
      simp only [alistUpdate, if_neg heq, List.map_cons, List.sum_cons]
      omega

theorem sum_map_sub_of_le {α : Type} (r c : α → Nat) (l : List α)
    (h : ∀ x ∈ l, c x ≤ r x) :
    (l.map fun x => r x - c x).sum + (l.map c).sum = (l.map r).sum := by
  induction l with
  | nil => simp
  | cons x xs ih =>
    have hx := h x (by simp)
    have hxs := ih fun y hy => h y (by simp [hy])
    simp only [List.map_cons, List.sum_cons]
    omega

/-! ### Lucky index bounds -/

theorem wyrandU64_lt (s : Nat) : wyrandU64 s < 2 ^ 64 := by
  unfold wyrandU64
  exact Nat.mod_lt _ (by norm_num)

theorem sum_map_sub_ge {α : Type} (r c : α → Nat) (l : List α) :
    (l.map r).sum ≤ (l.map fun x => r x - c x).sum + (l.map c).sum := by
  induction l with
  | nil => simp
  | cons x xs ih =>
    simp only [List.map_cons, List.sum_cons]
    omega

theorem luckyIndex_lt {s n : Nat} (h : 0 < n) : luckyIndex s n < n := by
  unfold luckyIndex
  have hne : ¬ n = 0 := by omega
  simp only [if_neg hne]
  rw [Nat.div_lt_iff_lt_mul (by norm_num : 0 < 2 ^ 64)]
  calc wyrandU64 s * n < 2 ^ 64 * n :=
        Nat.mul_lt_mul_of_pos_right (wyrandU64_lt s) h
  _ = n * 2 ^ 64 := Nat.mul_comm _ _

/-! ### Structure of the use-funds step -/

theorem length_boostAmountsAfter (p : Pool) (req : Nat) :
    (boostAmountsAfter p req).length = p.amounts.length := by
  simp [boostAmountsAfter]

theorem getElem?_boostAmountsAfter (p : Pool) (req i : Nat) :
    (boostAmountsAfter p req)[i]? =
      (p.amounts[i]?).map fun ba => (ba.1, ba.2 - boostContribution req p.available ba.2) := by
  simp [boostAmountsAfter]

theorem sumVals_boostAmountsAfter (p : Pool) (req : Nat) (hreq : req ≤ p.available) :
    sumVals (boostAmountsAfter p req)
      + (p.amounts.map fun ba => boostContribution req p.available ba.2).sum
      = sumVals p.amounts :=
  sumVals_map_sub p.amounts hreq

theorem totalContributed_eq (p : Pool) (req : Nat)
    (h : (p.amounts.map fun ba => boostContribution req p.available ba.2).sum ≤ U128MAX) :
    totalContributed p req
      = (p.amounts.map fun ba => boostContribution req p.available ba.2).sum := by
  unfold totalContributed
  exact satSum_eq h

theorem toReceiveRecorded_eq (p : Pool) (req A : Nat)
    (h : (p.amounts.map fun ba => boostToReceive A p.available ba.2).sum ≤ U128MAX) :
    toReceiveRecorded p req A
      = (p.amounts.map fun ba => boostToReceive A p.available ba.2).sum := by
  unfold toReceiveRecorded
  exact satSum_eq h

theorem sumTotals_boostersToReceive (p : Pool) (req A : Nat) :
    sumTotals (boostersToReceive p req A)
      = (p.amounts.map fun ba => boostToReceive A p.available ba.2).sum := by
  unfold sumTotals boostersToReceive
  rw [List.map_map]
  rfl

theorem sumFees_boostersToReceive (p : Pool) (req A : Nat) :
    sumFees (boostersToReceive p req A)
      = (p.amounts.map fun ba =>
          boostToReceive A p.available ba.2 - boostContribution req p.available ba.2).sum := by
  unfold sumFees boostersToReceive
  rw [List.map_map]
  rfl

theorem sumVals_boostAmountsFinal (p : Pool) (depositId req : Nat) (hinv : PoolInv p)
    (hreq : req ≤ p.available) :
    sumVals (boostAmountsFinal p depositId req) = p.available - req := by
  obtain ⟨hsum, hmax, hsort⟩ := hinv
  have hScLe : (p.amounts.map fun ba => boostContribution req p.available ba.2).sum
      ≤ sumVals p.amounts := sum_contrib_le _ hreq
  have hScGe : req ≤ (p.amounts.map fun ba => boostContribution req p.available ba.2).sum := by
    have h1 : req ≤ sumVals p.amounts := by omega
    have h2 : sumVals p.amounts ≤ U128MAX := by omega
    have h3 := sum_contrib_ge p.amounts h1 h2
    rwa [← hsum] at h3
  have hamounts1 := sumVals_boostAmountsAfter p req hreq
  have htc := totalContributed_eq p req (by omega)
  unfold boostAmountsFinal
  cases hl : (boostAmountsAfter p req)[luckyIndex depositId p.amounts.length]? with
  | none =>
    have hlen0 : p.amounts.length = 0 := by
      by_contra hne
      have hpos : 0 < p.amounts.length := Nat.pos_of_ne_zero hne
      have hlt := luckyIndex_lt (s := depositId) hpos
      have hlen := length_boostAmountsAfter p req
      rw [List.getElem?_eq_none_iff] at hl
      omega
    have hnil : p.amounts = [] := List.length_eq_zero.mp hlen0
    have hba : boostAmountsAfter p req = [] := by
      unfold boostAmountsAfter
      rw [hnil]
      rfl
    rw [hba]
    have hz : sumVals p.amounts = 0 := by
      rw [hnil]
      rfl
    simp only [sumVals, List.map_nil, List.sum_nil]
    omega
  | some lucky =>
    obtain ⟨lk, lv⟩ := lucky
    have hsat : satAdd lv (boostExcess p req) = lv + boostExcess p req := by
      apply satAdd_eq
      have hlv : lv ≤ sumVals (boostAmountsAfter p req) := getElem?_snd_le_sumVals hl
      unfold boostExcess
      rw [htc]
      omega
    have hset := sumVals_set (lv + boostExcess p req) hl
    change sumVals ((boostAmountsAfter p req).set (luckyIndex depositId p.amounts.length)
      (lk, satAdd lv (boostExcess p req))) = p.available - req
    rw [hsat]
    unfold boostExcess at hset ⊢
    rw [htc] at hset ⊢
    omega

theorem keysSorted_boostAmountsFinal (p : Pool) (depositId req : Nat)
    (hsort : KeysSorted p.amounts) : KeysSorted (boostAmountsFinal p depositId req) := by
  have hs1 : KeysSorted (boostAmountsAfter p req) := by
    unfold boostAmountsAfter
    exact keysSorted_map _ hsort
  unfold boostAmountsFinal
  cases hl : (boostAmountsAfter p req)[luckyIndex depositId p.amounts.length]? with
  | none => exact hs1
  | some lucky =>
    obtain ⟨lk, lv⟩ := lucky
    exact keysSorted_set _ hl hs1


theorem sumTotals_boostEntryFinal (p : Pool) (depositId req A : Nat) (hinv : PoolInv p)
    (hreq : req ≤ p.available) (hA : A ≤ U128MAX) (hnonempty : p.amounts ≠ []) :
    sumTotals (boostEntryFinal p depositId req A) = A := by
  obtain ⟨hsum, hmax, hsort⟩ := hinv
  have hSrLe : (p.amounts.map fun ba => boostToReceive A p.available ba.2).sum ≤ A :=
    sum_recv_le p.amounts hsum.symm
  have htr := toReceiveRecorded_eq p req A (by omega)
  have hbt := sumTotals_boostersToReceive p req A
  have hpos : 0 < p.amounts.length := List.length_pos.mpr hnonempty
  have hlt := luckyIndex_lt (s := depositId) hpos
  have hlen := length_boostAmountsAfter p req
  unfold boostEntryFinal
  cases hl : (boostAmountsAfter p req)[luckyIndex depositId p.amounts.length]? with
  | none =>
    rw [List.getElem?_eq_none_iff] at hl
    omega
  | some lucky =>
    obtain ⟨lk, lv⟩ := lucky
    rw [getElem?_boostAmountsAfter] at hl
    rcases Option.map_eq_some'.mp hl with ⟨orig, horig, hfeq⟩
    injection hfeq with hfk hfv
    subst hfk
    have hbtrGet : (boostersToReceive p req A)[luckyIndex depositId p.amounts.length]? =
        some (orig.1,
          { total := boostToReceive A p.available orig.2,
            fee := boostToReceive A p.available orig.2
              - boostContribution req p.available orig.2 }) := by
      unfold boostersToReceive
      rw [List.getElem?_map, horig]
      rfl
    have hbtrSorted : KeysSorted (boostersToReceive p req A) := by
      unfold boostersToReceive
      exact keysSorted_map _ hsort
    have hlook := alistLookup_of_getElemOpt hbtrSorted hbtrGet
    have homem := mem_of_getElemOpt hbtrGet
    have hole := elem_total_le_sumTotals homem
    have hupd := sumBy_alistUpdate (fun o => o.total)
      (fun o => { total := satAdd o.total (boostRemaining p req A),
                  fee := satAdd o.fee (boostRemaining p req A) }) hlook
    have hrem : boostRemaining p req A
        = A - (p.amounts.map fun ba => boostToReceive A p.available ba.2).sum := by
      unfold boostRemaining
      rw [htr]
    have hsat : satAdd (boostToReceive A p.available orig.2) (boostRemaining p req A)
        = boostToReceive A p.available orig.2 + boostRemaining p req A := by
      apply satAdd_eq
      simp only at hole
      rw [hrem]
      rw [hbt] at hole
      omega
    change sumTotals (alistUpdate (boostersToReceive p req A) orig.1 fun o =>
      { total := satAdd o.total (boostRemaining p req A),
        fee := satAdd o.fee (boostRemaining p req A) }) = A
    unfold sumTotals at *
    simp only at hupd hole
    rw [hsat] at hupd
    omega

theorem sumFees_boostEntryFinal (p : Pool) (depositId req A : Nat) (hinv : PoolInv p)
    (hreq : req ≤ p.available) (hA : A ≤ U128MAX) (hnonempty : p.amounts ≠ [])
    (hcr : ∀ ba ∈ p.amounts, boostContribution req p.available ba.2
      ≤ boostToReceive A p.available ba.2) :
    sumFees (boostEntryFinal p depositId req A) + boostExcess p req + req = A := by
  obtain ⟨hsum, hmax, hsort⟩ := hinv
  have hSrLe : (p.amounts.map fun ba => boostToReceive A p.available ba.2).sum ≤ A :=
    sum_recv_le p.amounts hsum.symm
  have hScLe : (p.amounts.map fun ba => boostContribution req p.available ba.2).sum
      ≤ sumVals p.amounts := sum_contrib_le _ hreq
  have hScGe : req ≤ (p.amounts.map fun ba => boostContribution req p.available ba.2).sum := by
    have h1 : req ≤ sumVals p.amounts := by omega
    have h2 : sumVals p.amounts ≤ U128MAX := by omega
    have h3 := sum_contrib_ge p.amounts h1 h2
    rwa [← hsum] at h3
  have htc := totalContributed_eq p req (by omega)
  have htr := toReceiveRecorded_eq p req A (by omega)
  have hsplit := sum_map_sub_of_le (fun ba => boostToReceive A p.available ba.2)
    (fun ba => boostContribution req p.available ba.2) p.amounts hcr
  have hbf := sumFees_boostersToReceive p req A
  have hbt := sumTotals_boostersToReceive p req A
  have hpos : 0 < p.amounts.length := List.length_pos.mpr hnonempty
  have hlt := luckyIndex_lt (s := depositId) hpos
  have hlen := length_boostAmountsAfter p req
  unfold boostEntryFinal
  cases hl : (boostAmountsAfter p req)[luckyIndex depositId p.amounts.length]? with
  | none =>
    rw [List.getElem?_eq_none_iff] at hl
    omega
  | some lucky =>
    obtain ⟨lk, lv⟩ := lucky
    rw [getElem?_boostAmountsAfter] at hl
    rcases Option.map_eq_some'.mp hl with ⟨orig, horig, hfeq⟩
    injection hfeq with hfk hfv
    subst hfk
    have hbtrGet : (boostersToReceive p req A)[luckyIndex depositId p.amounts.length]? =
        some (orig.1,
          { total := boostToReceive A p.available orig.2,
            fee := boostToReceive A p.available orig.2
              - boostContribution req p.available orig.2 }) := by
      unfold boostersToReceive
      rw [List.getElem?_map, horig]
      rfl
    have hbtrSorted : KeysSorted (boostersToReceive p req A) := by
      unfold boostersToReceive
      exact keysSorted_map _ hsort
    have hlook := alistLookup_of_getElemOpt hbtrSorted hbtrGet
    have homem := mem_of_getElemOpt hbtrGet
    have hole := elem_total_le_sumTotals homem
    have hupd := sumBy_alistUpdate (fun o => o.fee)
      (fun o => { total := satAdd o.total (boostRemaining p req A),
                  fee := satAdd o.fee (boostRemaining p req A) }) hlook
    have hrem : boostRemaining p req A
        = A - (p.amounts.map fun ba => boostToReceive A p.available ba.2).sum := by
      unfold boostRemaining
      rw [htr]
    have hsat : satAdd (boostToReceive A p.available orig.2
          - boostContribution req p.available orig.2) (boostRemaining p req A)
        = (boostToReceive A p.available orig.2
          - boostContribution req p.available orig.2) + boostRemaining p req A := by
      apply satAdd_eq
      simp only at hole
      rw [hrem]
      rw [hbt] at hole
      omega
    change sumFees (alistUpdate (boostersToReceive p req A) orig.1 fun o =>
      { total := satAdd o.total (boostRemaining p req A),
        fee := satAdd o.fee (boostRemaining p req A) }) + boostExcess p req + req = A
    unfold sumFees at *
    unfold sumTotals at *
    unfold boostExcess
    rw [htc]
    simp only at hupd hole hsplit
    rw [hsat] at hupd
    omega

theorem sumFees_boostEntryFinal_ge (p : Pool) (depositId req A : Nat) (hinv : PoolInv p)
    (hreq : req ≤ p.available) (hA : A ≤ U128MAX) (hnonempty : p.amounts ≠ []) :
    A ≤ sumFees (boostEntryFinal p depositId req A) + boostExcess p req + req := by
  obtain ⟨hsum, hmax, hsort⟩ := hinv
  have hSrLe : (p.amounts.map fun ba => boostToReceive A p.available ba.2).sum ≤ A :=
    sum_recv_le p.amounts hsum.symm
  have hScLe : (p.amounts.map fun ba => boostContribution req p.available ba.2).sum
      ≤ sumVals p.amounts := sum_contrib_le _ hreq
  have hScGe : req ≤ (p.amounts.map fun ba => boostContribution req p.available ba.2).sum := by
    have h1 : req ≤ sumVals p.amounts := by omega
    have h2 : sumVals p.amounts ≤ U128MAX := by omega
    have h3 := sum_contrib_ge p.amounts h1 h2
    rwa [← hsum] at h3
  have htc := totalContributed_eq p req (by omega)
  have htr := toReceiveRecorded_eq p req A (by omega)
  have hge := sum_map_sub_ge (fun ba => boostToReceive A p.available ba.2)
    (fun ba => boostContribution req p.available ba.2) p.amounts
  have hbf := sumFees_boostersToReceive p req A
  have hbt := sumTotals_boostersToReceive p req A
  have hpos : 0 < p.amounts.length := List.length_pos.mpr hnonempty
  have hlt := luckyIndex_lt (s := depositId) hpos
  have hlen := length_boostAmountsAfter p req
  unfold boostEntryFinal
  cases hl : (boostAmountsAfter p req)[luckyIndex depositId p.amounts.length]? with
  | none =>
    rw [List.getElem?_eq_none_iff] at hl
    omega
  | some lucky =>
    obtain ⟨lk, lv⟩ := lucky
    rw [getElem?_boostAmountsAfter] at hl
    rcases Option.map_eq_some'.mp hl with ⟨orig, horig, hfeq⟩
    injection hfeq with hfk hfv
    subst hfk
    have hbtrGet : (boostersToReceive p req A)[luckyIndex depositId p.amounts.length]? =
        some (orig.1,
          { total := boostToReceive A p.available orig.2,
            fee := boostToReceive A p.available orig.2
              - boostContribution req p.available orig.2 }) := by
      unfold boostersToReceive
      rw [List.getElem?_map, horig]
      rfl
    have hbtrSorted : KeysSorted (boostersToReceive p req A) := by
      unfold boostersToReceive
      exact keysSorted_map _ hsort
    have hlook := alistLookup_of_getElemOpt hbtrSorted hbtrGet
    have homem := mem_of_getElemOpt hbtrGet
    have hole := elem_total_le_sumTotals homem
    have hupd := sumBy_alistUpdate (fun o => o.fee)
      (fun o => { total := satAdd o.total (boostRemaining p req A),
                  fee := satAdd o.fee (boostRemaining p req A) }) hlook
    have hrem : boostRemaining p req A
        = A - (p.amounts.map fun ba => boostToReceive A p.available ba.2).sum := by
      unfold boostRemaining
      rw [htr]
    have hsat : satAdd (boostToReceive A p.available orig.2
          - boostContribution req p.available orig.2) (boostRemaining p req A)
        = (boostToReceive A p.available orig.2
          - boostContribution req p.available orig.2) + boostRemaining p req A := by
      apply satAdd_eq
      simp only at hole
      rw [hrem]
      rw [hbt] at hole
      omega
    change A ≤ sumFees (alistUpdate (boostersToReceive p req A) orig.1 fun o =>
      { total := satAdd o.total (boostRemaining p req A),
        fee := satAdd o.fee (boostRemaining p req A) }) + boostExcess p req + req
    unfold sumFees at *
    unfold sumTotals at *
    unfold boostExcess
    rw [htc]
    simp only at hupd hole hge
    rw [hsat] at hupd
    omega

/-! ### Invariant preservation -/

theorem poolInv_newPool (feeBps : Nat) : PoolInv (newPool feeBps) := by
  refine ⟨rfl, ?_, ?_⟩
  · exact Nat.zero_le _
  · exact List.Pairwise.nil

theorem poolInv_useFunds (p : Pool) (depositId req fee : Nat) (hinv : PoolInv p) :
    PoolInv (useFundsForBoosting p depositId req fee).2 := by
  by_cases hreq : req ≤ p.available
  · have h1 := sumVals_boostAmountsFinal p depositId req hinv hreq
    have h2 := keysSorted_boostAmountsFinal p depositId req hinv.2.2
    have hmax := hinv.2.1
    unfold useFundsForBoosting
    rw [checkedSub_eq_some hreq]
    cases alistLookup p.pendingBoosts depositId with
    | some e =>
      refine ⟨h1.symm, ?_, h2⟩
      show p.available - req ≤ U128MAX
      omega
    | none =>
      refine ⟨h1.symm, ?_, h2⟩
      show p.available - req ≤ U128MAX
      omega
  · unfold useFundsForBoosting
    rw [show checkedSub p.available req = none by simp [checkedSub, hreq]]
    exact hinv

theorem useFunds_available (p : Pool) (depositId req fee : Nat) (hreq : req ≤ p.available) :
    (useFundsForBoosting p depositId req fee).2.available = p.available - req := by
  unfold useFundsForBoosting
  rw [checkedSub_eq_some hreq]
  cases alistLookup p.pendingBoosts depositId with
  | some e => rfl
  | none => rfl

theorem providedAndFee_fst_le (p : Pool) (amt : Nat) {pf : Nat × Nat}
    (h : providedAndFee p amt = .ok pf) : pf.1 ≤ p.available := by
  unfold providedAndFee at h
  split at h
  · next hle =>
    simp only [Except.ok.injEq] at h
    subst h
    exact hle
  · split at h
    · simp at h
    · next fee heq =>
      simp only [Except.ok.injEq] at h
      subst h
      exact le_refl _

theorem provideFunds_snd (p : Pool) (depositId amt pct : Nat) :
    (provideFundsForBoosting p depositId amt pct).2 =
      match providedAndFee p amt with
      | .error _ => p
      | .ok pf => (useFundsForBoosting p depositId pf.1 (boostPoolFeeFrom pf.2 pct)).2 := by
  unfold provideFundsForBoosting
  cases providedAndFee p amt with
  | error e => rfl
  | ok pf =>
    cases h : useFundsForBoosting p depositId pf.1 (boostPoolFeeFrom pf.2 pct) with
    | mk r q =>
      cases r with
      | error e => simp [h]
      | ok u => simp [h]

theorem poolInv_provideFunds (p : Pool) (depositId amt pct : Nat) (hinv : PoolInv p) :
    PoolInv (provideFundsForBoosting p depositId amt pct).2 := by
  rw [provideFunds_snd]
  cases h : providedAndFee p amt with
  | error e => exact hinv
  | ok pf => exact poolInv_useFunds p depositId pf.1 (boostPoolFeeFrom pf.2 pct) hinv

theorem poolInv_addFundsInner (p : Pool) (b x : Nat) (hinv : PoolInv p)
    (hx : p.available + x ≤ U128MAX) :
    PoolInv (addFundsInner p b x) ∧ (addFundsInner p b x).available = p.available + x := by
  obtain ⟨hsum, hmax, hsort⟩ := hinv
  have hold : (alistLookup p.amounts b).getD 0 ≤ sumVals p.amounts := by
    cases hlk : alistLookup p.amounts b with
    | none => simp
    | some a =>
      simp only [Option.getD_some]
      exact lookup_le_sumVals hlk
  have hsat1 : satAdd ((alistLookup p.amounts b).getD 0) x
      = (alistLookup p.amounts b).getD 0 + x := satAdd_eq (by omega)
  have hins := sumVals_alistInsert hsort b ((alistLookup p.amounts b).getD 0 + x)
  have hsat2 : satAdd p.available x = p.available + x := satAdd_eq (by omega)
  constructor
  · refine ⟨?_, ?_, ?_⟩
    · show satAdd p.available x
        = sumVals (alistInsert p.amounts b (satAdd ((alistLookup p.amounts b).getD 0) x))
      rw [hsat1, hsat2]
      omega
    · show satAdd p.available x ≤ U128MAX
      rw [hsat2]
      omega
    · exact keysSorted_alistInsert b _ hsort
  · exact hsat2

theorem poolInv_stopBoosting (p : Pool) (b : Nat) (hinv : PoolInv p) :
    PoolInv (stopBoosting p b).2 := by
  obtain ⟨hsum, hmax, hsort⟩ := hinv
  unfold stopBoosting
  cases hlk : alistLookup p.amounts b with
  | none => exact ⟨hsum, hmax, hsort⟩
  | some a =>
    have hle := lookup_le_sumVals hlk
    have herase := sumVals_alistErase hlk
    refine ⟨?_, ?_, keysSorted_alistErase b hsort⟩
    · show p.available - a = sumVals (alistErase p.amounts b)
      omega
    · show p.available - a ≤ U128MAX
      omega

theorem poolInv_lost (p : Pool) (depositId : Nat) (hinv : PoolInv p) :
    PoolInv (processDepositAsLost p depositId).1 := by
  unfold processDepositAsLost
  cases alistLookup p.pendingBoosts depositId with
  | none => exact hinv
  | some contributions => exact hinv

theorem finaliseStep_snd (depositId : Nat) (acc : Pool × List (Nat × Nat) × Nat)
    (e : Nat × OwedAmount) :
    (finaliseStep depositId acc e).2.2 = satAdd acc.2.2 e.2.total := by
  unfold finaliseStep
  dsimp only

theorem finaliseStep_pool (depositId : Nat) (acc : Pool × List (Nat × Nat) × Nat)
    (e : Nat × OwedAmount) :
    (finaliseStep depositId acc e).1 = addFundsInner acc.1 e.1 e.2.total ∨
      ((finaliseStep depositId acc e).1.available = acc.1.available ∧
       (finaliseStep depositId acc e).1.amounts = acc.1.amounts) := by
  unfold finaliseStep
  dsimp only
  cases alistLookup acc.1.pendingWithdrawals e.1 with
  | none => left; rfl
  | some pendingDeposits => right; constructor <;> rfl

theorem poolInv_finaliseFold (depositId : Nat) (contributions : List (Nat × OwedAmount)) :
    ∀ (st : Pool × List (Nat × Nat) × Nat), PoolInv st.1 →
      st.1.available + sumTotals contributions ≤ U128MAX →
      PoolInv (contributions.foldl (finaliseStep depositId) st).1 ∧
      (contributions.foldl (finaliseStep depositId) st).1.available
        ≤ st.1.available + sumTotals contributions := by
  induction contributions with
  | nil =>
    intro st h1 h2
    simp only [List.foldl_nil, sumTotals, List.map_nil, List.sum_nil]
    exact ⟨h1, by omega⟩
  | cons e rest ih =>
    intro st h1 h2
    simp only [List.foldl_cons]
    have hsums : sumTotals (e :: rest) = e.2.total + sumTotals rest := by
      simp [sumTotals]
    rcases finaliseStep_pool depositId st e with hcase | hcase
    · have hadd := poolInv_addFundsInner st.1 e.1 e.2.total h1 (by omega)
      have h3 : PoolInv (finaliseStep depositId st e).1 := by
        rw [hcase]
        exact hadd.1
      have h4 : (finaliseStep depositId st e).1.available = st.1.available + e.2.total := by
        rw [hcase]
        exact hadd.2
      have := ih (finaliseStep depositId st e) h3 (by omega)
      refine ⟨this.1, ?_⟩
      omega
    · have h3 : PoolInv (finaliseStep depositId st e).1 := by
        obtain ⟨ha, hb⟩ := hcase
        exact ⟨ha.symm ▸ hb.symm ▸ h1.1, ha.symm ▸ h1.2.1, hb.symm ▸ h1.2.2⟩
      have := ih (finaliseStep depositId st e) h3 (by omega)
      refine ⟨this.1, ?_⟩
      omega

theorem poolInv_finalise (p : Pool) (depositId : Nat) (hinv : PoolInv p)
    (hns : p.available + sumTotals ((alistLookup p.pendingBoosts depositId).getD []) ≤ U128MAX) :
    PoolInv (processDepositAsFinalised p depositId).1 := by
  unfold processDepositAsFinalised
  cases hlk : alistLookup p.pendingBoosts depositId with
  | none => exact hinv
  | some contributions =>
    rw [hlk] at hns
    simp only [Option.getD_some] at hns
    have hstart : PoolInv { p with pendingBoosts := alistErase p.pendingBoosts depositId } :=
      ⟨hinv.1, hinv.2.1, hinv.2.2⟩
    exact (poolInv_finaliseFold depositId contributions _ hstart hns).1

theorem poolInv_applyOp (p : Pool) (op : Op) (hinv : PoolInv p) (hns : NoSatOp p op) :
    PoolInv (applyOp p op) := by
  cases op with
  | addFunds b a =>
    exact (poolInv_addFundsInner p b (fromChainAmount a) hinv hns).1
  | provideFunds id amt pct => exact poolInv_provideFunds p id amt pct hinv
  | finalise id => exact poolInv_finalise p id hinv hns
  | lost id => exact poolInv_lost p id hinv
  | stopBoosting b => exact poolInv_stopBoosting p b hinv

theorem poolInv_run (p : Pool) (ops : List Op) (hinv : PoolInv p) (hns : NoSatTrace p ops) :
    PoolInv (run p ops) := by
  induction ops generalizing p with
  | nil => exact hinv
  | cons op rest ih =>
    obtain ⟨h1, h2⟩ := hns
    exact ih (applyOp p op) (poolInv_applyOp p op hinv h1) h2

/-! ### Helper lemmas for the claim theorems -/

theorem except_toOption_ok {α : Type} {e : Except String α} {x : α}
    (h : e.toOption = some x) : e = .ok x := by
  cases e with
  | error msg => simp [Except.toOption] at h
  | ok v =>
    simp only [Except.toOption, Option.some_inj] at h
    rw [h]

theorem alistLookup_alistInsert_self {α : Type} (m : List (Nat × α)) (k : Nat) (v : α) :
    alistLookup (alistInsert m k v) k = some v := by
  induction m with
  | nil => simp [alistInsert, alistLookup]
  | cons x xs ih =>
    simp only [alistInsert]
    split
    · simp [alistLookup]
    · split
      · simp [alistLookup]
      · next h1 h2 =>
        have hne : ¬ k = x.1 := h2
        simp only [alistLookup, if_neg hne]
        exact ih

theorem useFunds_ok (p : Pool) (depositId req fee : Nat) (hreq : req ≤ p.available)
    (hfresh : alistLookup p.pendingBoosts depositId = none) :
    useFundsForBoosting p depositId req fee =
      (.ok (), { p with
                  available := p.available - req
                  amounts := boostAmountsFinal p depositId req
                  pendingBoosts := alistInsert p.pendingBoosts depositId
                    (boostEntryFinal p depositId req (satAdd req fee)) }) := by
  unfold useFundsForBoosting
  rw [checkedSub_eq_some hreq, hfresh]

theorem useFunds_not_insufficient (p : Pool) (depositId req fee : Nat)
    (hreq : req ≤ p.available) {e : String} {q : Pool}
    (h : useFundsForBoosting p depositId req fee = (.error e, q)) :
    e = "Pending boost id already exists" := by
  unfold useFundsForBoosting at h
  rw [checkedSub_eq_some hreq] at h
  cases hpb : alistLookup p.pendingBoosts depositId with
  | some v =>
    rw [hpb] at h
    simp only [Prod.mk.injEq, Except.error.injEq] at h
    exact h.1.symm
  | none =>
    rw [hpb] at h
    simp at h

theorem useFunds_error_cases (p : Pool) (depositId req fee : Nat) {e : String} {q : Pool}
    (h : useFundsForBoosting p depositId req fee = (.error e, q)) :
    (e = "Not enough available funds" ∧ q = p) ∨ e = "Pending boost id already exists" := by
  by_cases hreq : req ≤ p.available
  · right
    exact useFunds_not_insufficient p depositId req fee hreq h
  · left
    unfold useFundsForBoosting at h
    rw [show checkedSub p.available req = none by simp [checkedSub, hreq]] at h
    simp only [Prod.mk.injEq, Except.error.injEq] at h
    exact ⟨h.1.symm, h.2.symm⟩

theorem feeFromProvided_error_val (provided feeBps : Nat) {e : String}
    (h : feeFromProvidedAmount provided feeBps = .error e) : e = "invalid fee" := by
  simp only [feeFromProvidedAmount] at h
  split at h
  · simp only [Except.error.injEq] at h
    exact h.symm
  · split at h
    · simp only [Except.error.injEq] at h
      exact h.symm
    · exact Except.noConfusion h

theorem mbr_some_le (a b c : Nat) (r : MulRounding) {q : Nat}
    (h : mulByRationalWithRounding a b c r = some q) : q ≤ U128MAX := by
  simp only [mulByRationalWithRounding] at h
  split at h
  · exact Option.noConfusion h
  · split at h
    · exact Option.noConfusion h
    · next hq =>
      simp only [Option.some_inj] at h
      omega

theorem feeFromProvided_ok_bound (provided feeBps : Nat) {f : Nat}
    (h : feeFromProvidedAmount provided feeBps = .ok f) : provided + f ≤ U128MAX := by
  simp only [feeFromProvidedAmount] at h
  split at h
  · exact Except.noConfusion h
  · next b hm =>
    have hb : b ≤ U128MAX := mbr_some_le _ _ _ _ hm
    split at h
    · exact Except.noConfusion h
    · next hlt =>
      simp only [Except.ok.injEq] at h
      omega

theorem perThingMulNearest_le {acc parts : Nat} (x : Nat) (hp : parts ≤ acc)
    (hacc : 0 < acc) : perThingMulNearest acc parts x ≤ x := by
  have h1 := Nat.div_add_mod (parts * x) acc
  have h2 : parts * x % acc < acc := Nat.mod_lt _ hacc
  have h3 : parts * x ≤ acc * x := Nat.mul_le_mul_right x hp
  have h4 : parts * x / acc ≤ acc * x / acc := Nat.div_le_div_right h3
  have h5 : acc * x / acc = x := Nat.mul_div_cancel_left x hacc
  have hqle : parts * x / acc ≤ x := by omega
  show parts * x / acc + (if acc / 2 < parts * x % acc then 1 else 0) ≤ x
  split
  · next hrem =>
    rcases Nat.lt_or_ge (parts * x / acc) x with hlt | hge
    · omega
    · have hqx : parts * x / acc = x := Nat.le_antisymm hqle hge
      rw [hqx] at h1
      omega
  · omega

theorem perThingMulNearest_full (acc a : Nat) (hacc : 0 < acc) :
    perThingMulNearest acc acc a = a := by
  have h1 : acc * a / acc = a := Nat.mul_div_cancel_left a hacc
  have h2 : acc * a % acc = 0 := Nat.mul_mod_right acc a
  show acc * a / acc + (if acc / 2 < acc * a % acc then 1 else 0) = a
  rw [h1, h2]
  simp

theorem fullFeeOf_le (p : Pool) (amt : Nat) : fullFeeOf p amt ≤ scaledRequest amt := by
  unfold fullFeeOf feeFromBoostedAmount
  exact perThingMulNearest_le _ (Nat.min_le_right _ _) (by norm_num)

theorem scaledRequest_le (amt : Nat) : scaledRequest amt ≤ U128MAX := sat128_le _

theorem providedAndFee_sum_le (p : Pool) (amt : Nat) {pf : Nat × Nat}
    (h : providedAndFee p amt = .ok pf) : pf.1 + pf.2 ≤ U128MAX := by
  unfold providedAndFee at h
  split at h
  · simp only [Except.ok.injEq] at h
    subst h
    have h1 := fullFeeOf_le p amt
    have h2 := scaledRequest_le amt
    show requiredOf p amt + fullFeeOf p amt ≤ U128MAX
    unfold requiredOf
    omega
  · cases hf : feeFromProvidedAmount p.available p.feeBps with
    | error e =>
      rw [hf] at h
      simp at h
    | ok fee =>
      rw [hf] at h
      simp only [Except.ok.injEq] at h
      subst h
      exact feeFromProvided_ok_bound p.available p.feeBps hf

theorem boostPoolFeeFrom_le (feeAmount pct : Nat) : boostPoolFeeFrom feeAmount pct ≤ feeAmount :=
  Nat.sub_le _ _

theorem provideFunds_ok_eq (p : Pool) (depositId amt pct : Nat) {pf : Nat × Nat}
    (hpf : providedAndFee p amt = .ok pf)
    (hfresh : alistLookup p.pendingBoosts depositId = none) :
    provideFundsForBoosting p depositId amt pct
      = (.ok (intoChainAmount (satAdd pf.1 pf.2), intoChainAmount pf.2),
         { p with
            available := p.available - pf.1
            amounts := boostAmountsFinal p depositId pf.1
            pendingBoosts := alistInsert p.pendingBoosts depositId
              (boostEntryFinal p depositId pf.1
                (satAdd pf.1 (boostPoolFeeFrom pf.2 pct))) }) := by
  have hle := providedAndFee_fst_le p amt hpf
  simp only [provideFundsForBoosting, hpf,
    useFunds_ok p depositId pf.1 (boostPoolFeeFrom pf.2 pct) hle hfresh]

/-! ### Claim theorems -/

/-- Claim C7 (counterexample): `fee_from_boosted_amount` does not round down.
At a scaled amount of 7000 and 1 bps the exact product is 0.7 scaled units;
the code returns 1 (nearest) while the claimed floor is 0. -/
theorem c7_fee_from_boosted_rounding_counterexample :
    feeFromBoostedAmount 7000 1 = 1 ∧ 7000 * (1 * 100) / 1000000 = 0 := by
  constructor
  · rfl
  · rfl

/-- Claim C7 (amended): `fee_from_boosted_amount(a, fee_bps)` equals
`a * (fee_bps * 100 clamped to one million) / 1_000_000` rounded to the
NEAREST integer with ties rounded down, which is
`(2 * parts * a + 999_999) / 2_000_000`, not the rounded-down value. -/
theorem c7_fee_from_boosted_rounding (a feeBps : Nat) :
    feeFromBoostedAmount a feeBps
      = (2 * (min (feeBps * 100) 1000000 * a) + 1000000 - 1) / 2000000 := by
  have hm : permillFromParts (feeBps * BASIS_POINTS_PER_MILLION)
      = min (feeBps * 100) 1000000 := rfl
  show perThingMulNearest 1000000 (permillFromParts (feeBps * BASIS_POINTS_PER_MILLION)) a = _
  rw [hm]
  show min (feeBps * 100) 1000000 * a / 1000000
      + (if 1000000 / 2 < min (feeBps * 100) 1000000 * a % 1000000 then 1 else 0) = _
  generalize min (feeBps * 100) 1000000 * a = num
  split <;> omega

/-- Claim C8 (counterexample): `fee_from_provided_amount` also fails for
`fee_bps` strictly greater than 10_000 (the u16 saturating subtraction gives
a zero divisor), so the error condition is not exactly
`fee_bps == 10_000 ∨ overflow`: at `provided = 0`, `fee_bps = 10_001` the
function errors although `fee_bps ≠ 10_000` and the rational value (0) does
not overflow. -/
theorem c8_fee_from_provided_errors_counterexample :
    feeFromProvidedAmount 0 10001 = .error "invalid fee" ∧ (10001 : Nat) ≠ 10000 ∧
      (0 : Int) * 10000 / ((10000 : Int) - 10001) = 0 := by
  refine ⟨rfl, by decide, by decide⟩

/-- Claim C8 (amended): `fee_from_provided_amount(provided, fee_bps)` returns
an error exactly when `fee_bps ≥ 10_000` (zero divisor after the saturating
subtraction) or `provided * 10_000 / (10_000 - fee_bps)` exceeds u128;
otherwise it returns `boosted - provided` with
`boosted = provided * 10_000 / (10_000 - fee_bps)` rounded down. -/
theorem c8_fee_from_provided_errors (provided feeBps : Nat) :
    ((∃ e, feeFromProvidedAmount provided feeBps = .error e) ↔
      10000 ≤ feeBps ∨ U128MAX < provided * 10000 / (10000 - feeBps)) ∧
    (feeBps < 10000 → provided * 10000 / (10000 - feeBps) ≤ U128MAX →
      feeFromProvidedAmount provided feeBps
        = .ok (provided * 10000 / (10000 - feeBps) - provided)) := by
  by_cases hb : 10000 ≤ feeBps
  · have hinv : 10000 - feeBps = 0 := by omega
    have herr : feeFromProvidedAmount provided feeBps = .error "invalid fee" := by
      simp [feeFromProvidedAmount, mulByRationalWithRounding, hinv]
    constructor
    · constructor
      · intro _
        left
        exact hb
      · intro _
        exact ⟨"invalid fee", herr⟩
    · intro hcon
      omega
  · have hinvne : ¬ (10000 - feeBps = 0) := by omega
    have hqge : provided ≤ provided * 10000 / (10000 - feeBps) := by
      have h1 : provided * (10000 - feeBps) ≤ provided * 10000 :=
        Nat.mul_le_mul_left provided (by omega)
      have h2 : provided * (10000 - feeBps) / (10000 - feeBps)
          ≤ provided * 10000 / (10000 - feeBps) := Nat.div_le_div_right h1
      have h3 : provided * (10000 - feeBps) / (10000 - feeBps) = provided :=
        Nat.mul_div_cancel provided (by omega)
      omega
    by_cases hof : U128MAX < provided * 10000 / (10000 - feeBps)
    · have herr : feeFromProvidedAmount provided feeBps = .error "invalid fee" := by
        simp only [feeFromProvidedAmount, mulByRationalWithRounding, if_neg hinvne, if_pos hof]
      constructor
      · constructor
        · intro _
          right
          exact hof
        · intro _
          exact ⟨"invalid fee", herr⟩
      · intro _ hcon
        omega
    · have hok : feeFromProvidedAmount provided feeBps
          = .ok (provided * 10000 / (10000 - feeBps) - provided) := by
        simp only [feeFromProvidedAmount, mulByRationalWithRounding, if_neg hinvne,
          if_neg hof]
        rw [if_neg (show ¬ provided * 10000 / (10000 - feeBps) < provided by omega)]
      constructor
      · constructor
        · intro ⟨e, he⟩
          rw [hok] at he
          exact absurd he (by exact fun hcon => Except.noConfusion hcon)
        · intro hcon
          rcases hcon with hcon | hcon
          · omega
          · omega
      · intro _ _
        exact hok

/-- Claim C8 (witness): at `provided = 1_000_000` (scaled) and 10 bps the
function returns `.ok 1001`, matching `boosted - provided` with
`boosted = 1_000_000 * 10_000 / 9_990`. -/
theorem c8_fee_from_provided_errors_witness :
    feeFromProvidedAmount 1000000 10 = .ok (1000000 * 10000 / (10000 - 10) - 1000000) :=
  (c8_fee_from_provided_errors 1000000 10).2 (by decide) (by decide)

/-- Claim C4: `provide_funds_for_boosting` is deterministic: re-running it on
an equal prior state with equal arguments yields an identical result and
post-state, and the lucky-booster index is a function of the deposit id and
the number of active boosters only (two pools with the same number of
boosters select the same index for the same deposit id). -/
theorem c4_provide_deterministic (p q : Pool) (depositId amt pct : Nat) :
    (p = q → provideFundsForBoosting p depositId amt pct
      = provideFundsForBoosting q depositId amt pct) ∧
    (p.amounts.length = q.amounts.length →
      luckyIndex depositId p.amounts.length = luckyIndex depositId q.amounts.length) := by
  constructor
  · intro h
    rw [h]
  · intro h
    rw [h]

/-- Claim C4 (witness): two pools with different boosters and balances but
the same number of active boosters get the same lucky index for deposit 1. -/
theorem c4_provide_deterministic_witness :
    luckyIndex 1 (run (newPool 0) [Op.addFunds 1 5]).amounts.length
      = luckyIndex 1 (run (newPool 0) [Op.addFunds 2 7]).amounts.length :=
  (c4_provide_deterministic (run (newPool 0) [Op.addFunds 1 5])
    (run (newPool 0) [Op.addFunds 2 7]) 1 0 0).2 (by decide)

/-- Claim C1 (counterexample): with saturating u128 arithmetic the
conservation invariant fails once a balance clips: after adding the maximum
chain amount (which saturates the scaled balance at u128::MAX) and then one
more unit for another booster, `available_amount` stays at u128::MAX while
the mathematical sum of `amounts` exceeds it. -/
theorem c1_conservation_counterexample :
    (run (newPool 0) [Op.addFunds 1 (2 ^ 128 - 1), Op.addFunds 2 1]).available
      ≠ sumVals (run (newPool 0) [Op.addFunds 1 (2 ^ 128 - 1), Op.addFunds 2 1]).amounts := by
  decide

/-- Claim C1 (amended): for every sequence of public operations starting from
`BoostPool::new` in which no saturating addition clips (every `add_funds` and
every finalisation credit keeps the scaled total within u128),
`available_amount` equals the sum of all values in `amounts` after the
sequence — and hence before and after every call, since every prefix is
itself such a sequence. -/
theorem c1_conservation (feeBps : Nat) (ops : List Op)
    (hns : NoSatTrace (newPool feeBps) ops) :
    (run (newPool feeBps) ops).available = sumVals (run (newPool feeBps) ops).amounts :=
  (poolInv_run (newPool feeBps) ops (poolInv_newPool feeBps) hns).1

/-- Claim C1 (witness): a concrete saturation-free trace exercising every
operation, for which the amended conservation theorem applies. -/
theorem c1_conservation_witness :
    NoSatTrace (newPool 100) [Op.addFunds 1 1000, Op.addFunds 2 2000,
      Op.provideFunds 1 1010 0, Op.stopBoosting 1, Op.finalise 1] ∧
    (run (newPool 100) [Op.addFunds 1 1000, Op.addFunds 2 2000,
      Op.provideFunds 1 1010 0, Op.stopBoosting 1, Op.finalise 1]).available
      = sumVals (run (newPool 100) [Op.addFunds 1 1000, Op.addFunds 2 2000,
        Op.provideFunds 1 1010 0, Op.stopBoosting 1, Op.finalise 1]).amounts :=
  ⟨by decide, c1_conservation 100 [Op.addFunds 1 1000, Op.addFunds 2 2000,
    Op.provideFunds 1 1010 0, Op.stopBoosting 1, Op.finalise 1] (by decide)⟩

theorem providedAndFee_error_val (p : Pool) (amt : Nat) {e : String}
    (h : providedAndFee p amt = .error e) : e = "invalid fee" := by
  unfold providedAndFee at h
  split at h
  · exact Except.noConfusion h
  · cases hf : feeFromProvidedAmount p.available p.feeBps with
    | error e1 =>
      rw [hf] at h
      simp only [Except.error.injEq] at h
      rw [← h]
      exact feeFromProvided_error_val p.available p.feeBps hf
    | ok fee =>
      rw [hf] at h
      exact Except.noConfusion h

theorem provideFunds_eq_pf_error (p : Pool) (depositId amt pct : Nat) {e0 : String}
    (hpf : providedAndFee p amt = .error e0) :
    provideFundsForBoosting p depositId amt pct = (.error e0, p) := by
  simp only [provideFundsForBoosting, hpf]

theorem provideFunds_eq_uf_error (p : Pool) (depositId amt pct : Nat) {pf : Nat × Nat}
    {e1 : String} {q : Pool}
    (hpf : providedAndFee p amt = .ok pf)
    (huf : useFundsForBoosting p depositId pf.1 (boostPoolFeeFrom pf.2 pct)
        = (.error e1, q)) :
    provideFundsForBoosting p depositId amt pct = (.error e1, q) := by
  simp only [provideFundsForBoosting, hpf, huf]

theorem provideFunds_eq_uf_ok (p : Pool) (depositId amt pct : Nat) {pf : Nat × Nat}
    {u : Unit} {q : Pool}
    (hpf : providedAndFee p amt = .ok pf)
    (huf : useFundsForBoosting p depositId pf.1 (boostPoolFeeFrom pf.2 pct)
        = (.ok u, q)) :
    provideFundsForBoosting p depositId amt pct
      = (.ok (intoChainAmount (satAdd pf.1 pf.2), intoChainAmount pf.2), q) := by
  simp only [provideFundsForBoosting, hpf, huf]

theorem provideFunds_fst_error (p : Pool) (depositId amt pct : Nat) {e : String}
    (h : (provideFundsForBoosting p depositId amt pct).1 = .error e) :
    ((e = "invalid fee" ∨ e = "Not enough available funds") ∧
      (provideFundsForBoosting p depositId amt pct).2 = p) ∨
    e = "Pending boost id already exists" := by
  cases hpf : providedAndFee p amt with
  | error e0 =>
    rw [provideFunds_eq_pf_error p depositId amt pct hpf] at h ⊢
    have h2 : (Except.error e0 : Except String (Nat × Nat)) = .error e := h
    simp only [Except.error.injEq] at h2
    left
    exact ⟨Or.inl (h2 ▸ providedAndFee_error_val p amt hpf), rfl⟩
  | ok pf =>
    cases huf : useFundsForBoosting p depositId pf.1 (boostPoolFeeFrom pf.2 pct) with
    | mk r q =>
      cases r with
      | ok u =>
        rw [provideFunds_eq_uf_ok p depositId amt pct hpf huf] at h
        have h2 : (Except.ok (intoChainAmount (satAdd pf.1 pf.2), intoChainAmount pf.2)
            : Except String (Nat × Nat)) = .error e := h
        exact Except.noConfusion h2
      | error e1 =>
        rw [provideFunds_eq_uf_error p depositId amt pct hpf huf] at h ⊢
        have h2 : (Except.error e1 : Except String (Nat × Nat)) = .error e := h
        simp only [Except.error.injEq] at h2
        rcases useFunds_error_cases p depositId pf.1 (boostPoolFeeFrom pf.2 pct) huf with
          ⟨he1, hq⟩ | he1
        · left
          refine ⟨Or.inr (h2 ▸ he1), ?_⟩
          show q = p
          exact hq
        · right
          exact h2 ▸ he1

/-- Claim C3 (counterexample): the duplicate-deposit-id rejection is not
atomic. After a boost for deposit id 7 and a further add of funds, a second
`provide_funds_for_boosting` with the same id 7 is rejected with
"Pending boost id already exists" but the available amount and the booster
amounts have already been debited, so the state differs from the prior one. -/
theorem c3_atomic_on_error_counterexample :
    opError (run (newPool 0) [Op.addFunds 1 100, Op.provideFunds 7 100 0, Op.addFunds 1 50])
        (Op.provideFunds 7 50 0) = some "Pending boost id already exists" ∧
    applyOp (run (newPool 0) [Op.addFunds 1 100, Op.provideFunds 7 100 0, Op.addFunds 1 50])
        (Op.provideFunds 7 50 0)
      ≠ run (newPool 0) [Op.addFunds 1 100, Op.provideFunds 7 100 0, Op.addFunds 1 50] := by
  constructor
  · rfl
  · decide

/-- Claim C3 (amended): every public operation that returns an error leaves
the pool state unchanged, EXCEPT `provide_funds_for_boosting` called with a
deposit id already present in `pending_boosts`: that call is rejected, but
only after `available_amount` and `amounts` have been debited. All other
error paths ("invalid fee", "Not enough available funds",
`AccountNotFoundInBoostPool`) are atomic. -/
theorem c3_atomic_on_error (p : Pool) (op : Op) (e : String)
    (herr : opError p op = some e) (hne : e ≠ "Pending boost id already exists") :
    applyOp p op = p := by
  cases op with
  | addFunds b a => exact Option.noConfusion herr
  | finalise id => exact Option.noConfusion herr
  | lost id => exact Option.noConfusion herr
  | provideFunds id amt pct =>
    show (provideFundsForBoosting p id amt pct).2 = p
    simp only [opError] at herr
    cases hres : (provideFundsForBoosting p id amt pct).1 with
    | ok v =>
      rw [hres] at herr
      exact Option.noConfusion herr
    | error e1 =>
      rw [hres] at herr
      simp only [Option.some_inj] at herr
      rcases provideFunds_fst_error p id amt pct hres with ⟨_, hstate⟩ | hdup
      · exact hstate
      · exact absurd (herr ▸ hdup) hne
  | stopBoosting b =>
    show (stopBoosting p b).2 = p
    simp only [opError] at herr
    unfold stopBoosting at herr ⊢
    cases hlk : alistLookup p.amounts b with
    | none => rfl
    | some a =>
      rw [hlk] at herr
      exact Option.noConfusion herr

/-- Claim C3 (witness): `stop_boosting` on an unknown booster errors with
`AccountNotFoundInBoostPool` and leaves the pool unchanged. -/
theorem c3_atomic_on_error_witness :
    opError (newPool 5) (Op.stopBoosting 1) = some "AccountNotFoundInBoostPool" ∧
    applyOp (newPool 5) (Op.stopBoosting 1) = newPool 5 :=
  ⟨rfl, c3_atomic_on_error (newPool 5) (Op.stopBoosting 1) "AccountNotFoundInBoostPool"
    rfl (by decide)⟩

/-- Claim C5: when the pool lacks sufficient liquidity
(`available < required`), `provide_funds_for_boosting` never fails with the
insufficiency error; if additionally the deposit id is fresh and the inverse
fee computation succeeds with fee `f`, it supplies all of `available_amount`
and returns `Ok` with first component `(available_amount + f)` converted to a
chain amount, leaving zero available. -/
theorem c5_partial_boost (p : Pool) (depositId amt pct : Nat)
    (hlow : p.available < requiredOf p amt) :
    (∀ e, (provideFundsForBoosting p depositId amt pct).1 = .error e →
      e ≠ "Not enough available funds") ∧
    (∀ f, alistLookup p.pendingBoosts depositId = none →
      (feeFromProvidedAmount p.available p.feeBps).toOption = some f →
      (provideFundsForBoosting p depositId amt pct).1
          = .ok (intoChainAmount (p.available + f), intoChainAmount f) ∧
      (provideFundsForBoosting p depositId amt pct).2.available = 0) := by
  constructor
  · intro e h
    cases hpf : providedAndFee p amt with
    | error e0 =>
      rw [provideFunds_eq_pf_error p depositId amt pct hpf] at h
      have h2 : (Except.error e0 : Except String (Nat × Nat)) = .error e := h
      simp only [Except.error.injEq] at h2
      have := providedAndFee_error_val p amt hpf
      rw [← h2, this]
      decide
    | ok pf =>
      have hfst : pf.1 = p.available := by
        unfold providedAndFee at hpf
        rw [if_neg (by omega)] at hpf
        cases hff : feeFromProvidedAmount p.available p.feeBps with
        | error e2 =>
          rw [hff] at hpf
          exact Except.noConfusion hpf
        | ok fee =>
          rw [hff] at hpf
          simp only [Except.ok.injEq] at hpf
          rw [← hpf]
      cases huf : useFundsForBoosting p depositId pf.1 (boostPoolFeeFrom pf.2 pct) with
      | mk r q =>
        cases r with
        | ok u =>
          rw [provideFunds_eq_uf_ok p depositId amt pct hpf huf] at h
          have h2 : (Except.ok (intoChainAmount (satAdd pf.1 pf.2), intoChainAmount pf.2)
              : Except String (Nat × Nat)) = .error e := h
          exact Except.noConfusion h2
        | error e1 =>
          rw [provideFunds_eq_uf_error p depositId amt pct hpf huf] at h
          have h2 : (Except.error e1 : Except String (Nat × Nat)) = .error e := h
          simp only [Except.error.injEq] at h2
          have := useFunds_not_insufficient p depositId pf.1 (boostPoolFeeFrom pf.2 pct)
            (by omega) huf
          rw [← h2, this]
          decide
  · intro f hfresh htoOpt
    have hff := except_toOption_ok htoOpt
    have hpf : providedAndFee p amt = .ok (p.available, f) := by
      unfold providedAndFee
      rw [if_neg (by omega), hff]
    have heq := provideFunds_ok_eq p depositId amt pct hpf hfresh
    have hb := feeFromProvided_ok_bound p.available p.feeBps hff
    have hsat : satAdd p.available f = p.available + f := satAdd_eq hb
    constructor
    · rw [heq]
      show Except.ok (intoChainAmount (satAdd p.available f), intoChainAmount f) = _
      rw [hsat]
    · rw [heq]
      show p.available - p.available = 0
      omega

/-- Claim C5 (witness): the `use_max_available_amount` scenario: a pool with
one booster holding 1_000_000 chain units at 100 bps, asked to boost
2_000_000, supplies everything and returns `Ok (1_010_101, 10_101)`. -/
theorem c5_partial_boost_witness :
    (provideFundsForBoosting (run (newPool 100) [Op.addFunds 1 1000000]) 1 2000000 0).1
        = .ok (intoChainAmount ((run (newPool 100) [Op.addFunds 1 1000000]).available
            + 10101010), intoChainAmount 10101010) ∧
    (provideFundsForBoosting (run (newPool 100) [Op.addFunds 1 1000000]) 1 2000000 0).2.available
        = 0 :=
  (c5_partial_boost (run (newPool 100) [Op.addFunds 1 1000000]) 1 2000000 0 (by decide)).2
    10101010 (by decide) (by decide)

theorem finaliseStep_credit (depositId : Nat) (acc : Pool × List (Nat × Nat) × Nat)
    (e : Nat × OwedAmount) :
    (finaliseStep depositId acc e).2.2 = satAdd acc.2.2 e.2.total := rfl

theorem finaliseFold_credit (depositId : Nat) (l : List (Nat × OwedAmount)) :
    ∀ acc : Pool × List (Nat × Nat) × Nat,
      (l.foldl (finaliseStep depositId) acc).2.2
        = l.foldl (fun n e => satAdd n e.2.total) acc.2.2 := by
  induction l with
  | nil => intro acc; rfl
  | cons x t ih =>
    intro acc
    simp only [List.foldl_cons]
    rw [ih (finaliseStep depositId acc x), finaliseStep_credit]

/-- Claim C9 (amended): for a deposit id present in `pending_boosts`,
`process_deposit_as_finalised` reports an `amount_credited_to_boosters`
equal to the saturating sum of the owed totals of ALL boosters recorded for
that deposit — including boosters with pending withdrawals, whose shares are
paid out via `unlocked_funds` rather than credited back into the pool — and
not only the totals of the non-withdrawing boosters as claimed. -/
theorem c9_amount_credited (p : Pool) (depositId : Nat)
    {entry : List (Nat × OwedAmount)}
    (h : alistLookup p.pendingBoosts depositId = some entry) :
    (processDepositAsFinalised p depositId).2.amountCredited
      = intoChainAmount (satSum (entry.map fun e => e.2.total)) := by
  simp only [processDepositAsFinalised, h]
  rw [finaliseFold_credit]
  unfold satSum
  rw [List.foldl_map]

/-- Claim C9 (witness): on `c9Pool` the credited amount for deposit 7 is the
chain-unit value of the saturating sum of both boosters' owed totals. -/
theorem c9_amount_credited_witness :
    (processDepositAsFinalised c9Pool 7).2.amountCredited
      = intoChainAmount (satSum (([(1, (⟨500000, 0⟩ : OwedAmount)),
          (2, ⟨500000, 0⟩)]).map fun e => e.2.total)) :=
  c9_amount_credited c9Pool 7 rfl

/-- Claim C9 (counterexample): with booster 2 withdrawing, the implementation
credits both boosters' totals (1000 chain units) while the claim's value —
the totals of the non-withdrawing boosters only — is 500; the withdrawing
booster's share is simultaneously paid out via `unlocked_funds`. -/
theorem c9_amount_credited_counterexample :
    (processDepositAsFinalised c9Pool 7).2.amountCredited = 1000 ∧
    intoChainAmount (sumNonWithdrawingTotals c9Pool
        [(1, ⟨500000, 0⟩), (2, ⟨500000, 0⟩)]) = 500 ∧
    (processDepositAsFinalised c9Pool 7).2.unlockedFunds = [(2, 500)] := by
  refine ⟨?_, ?_, ?_⟩ <;> rfl

theorem feeFromProvided_zero (feeBps : Nat) (h : feeBps < 10000) :
    feeFromProvidedAmount 0 feeBps = .ok 0 := by
  simp only [feeFromProvidedAmount, mulByRationalWithRounding]
  rw [if_neg (by omega : ¬(10000 - feeBps = 0))]
  simp

/-- Claim C10 (amended): on a pool with no active boosters and zero
available amount, `provide_funds_for_boosting` with a fresh deposit id is
total; whenever the required amount is positive it returns `Ok((0, 0))` and
records an empty booster map for the deposit id in `pending_boosts` (when
the fee consumes the whole request the call still succeeds, but returns the
fee instead of 0, as the counterexample shows). -/
theorem c10_empty_pool_boost (p : Pool) (depositId amt pct : Nat)
    (hamounts : p.amounts = []) (havail : p.available = 0)
    (hfresh : alistLookup p.pendingBoosts depositId = none)
    (hreq : 0 < requiredOf p amt) :
    provideFundsForBoosting p depositId amt pct
      = (.ok (0, 0),
         { p with pendingBoosts := alistInsert p.pendingBoosts depositId [] }) := by
  have hfb : p.feeBps < 10000 := by
    by_contra hge
    push_neg at hge
    have hmin : permillFromParts (p.feeBps * BASIS_POINTS_PER_MILLION) = 1000000 := by
      unfold permillFromParts BASIS_POINTS_PER_MILLION
      omega
    have hfull : fullFeeOf p amt = scaledRequest amt := by
      unfold fullFeeOf feeFromBoostedAmount
      rw [hmin]
      exact perThingMulNearest_full 1000000 (scaledRequest amt) (by omega)
    have h0 : requiredOf p amt = 0 := by
      unfold requiredOf
      omega
    omega
  have hff : feeFromProvidedAmount p.available p.feeBps = .ok 0 := by
    rw [havail]
    exact feeFromProvided_zero p.feeBps hfb
  have hpf : providedAndFee p amt = .ok (0, 0) := by
    unfold providedAndFee
    rw [if_neg (by omega), hff, havail]
  have hbaf : boostAmountsFinal p depositId 0 = [] := by
    unfold boostAmountsFinal boostAmountsAfter
    rw [hamounts]
    simp
  have hbef : boostEntryFinal p depositId 0 (satAdd 0 (boostPoolFeeFrom 0 pct)) = [] := by
    unfold boostEntryFinal boostersToReceive boostAmountsAfter
    rw [hamounts]
    simp
  have heq := provideFunds_ok_eq p depositId amt pct hpf hfresh
  have heq2 : provideFundsForBoosting p depositId amt pct
      = (.ok (intoChainAmount (satAdd 0 0), intoChainAmount 0),
         { p with
            available := p.available - 0
            amounts := boostAmountsFinal p depositId 0
            pendingBoosts := alistInsert p.pendingBoosts depositId
              (boostEntryFinal p depositId 0 (satAdd 0 (boostPoolFeeFrom 0 pct))) }) := heq
  rw [heq2, hbaf, hbef, Nat.sub_zero, ← hamounts]
  rfl

/-- Claim C10 (witness): a fresh boost of 5 chain units on an empty pool at
100 bps returns `Ok((0, 0))` and records an empty booster entry. -/
theorem c10_empty_pool_boost_witness :
    provideFundsForBoosting (newPool 100) 3 5 0
      = (.ok (0, 0),
         { newPool 100 with
            pendingBoosts := alistInsert (newPool 100).pendingBoosts 3 [] }) :=
  c10_empty_pool_boost (newPool 100) 3 5 0 rfl rfl rfl (by decide)

/-- Claim C10 (counterexample): on an empty pool at 9999 bps, boosting 1
chain unit has the entire request consumed by the fee (required amount 0),
and the call returns `Ok((1, 1))`, not `Ok((0, 0))`. -/
theorem c10_empty_pool_boost_counterexample :
    (newPool 9999).amounts = [] ∧ (newPool 9999).available = 0 ∧
    (provideFundsForBoosting (newPool 9999) 3 1 0).1 = .ok (1, 1) := by
  refine ⟨rfl, rfl, ?_⟩
  rfl

/-- Claim C2 (amended): for a fresh deposit id, on success the entry
recorded in `pending_boosts[deposit_id]` has `Σ owed.total` equal to
`provided + boost_pool_fee` — the provided amount plus the post-deduction
pool fee — not to `provided` alone. -/
theorem c2_boost_conservation (p : Pool) (depositId amt pct : Nat) {pf : Nat × Nat}
    (hinv : PoolInv p)
    (hpf : providedAndFee p amt = .ok pf)
    (hfresh : alistLookup p.pendingBoosts depositId = none)
    (hnonempty : p.amounts ≠ []) :
    ∃ entry, alistLookup (provideFundsForBoosting p depositId amt pct).2.pendingBoosts
        depositId = some entry ∧
      sumTotals entry = pf.1 + boostPoolFeeFrom pf.2 pct := by
  have heq := provideFunds_ok_eq p depositId amt pct hpf hfresh
  refine ⟨boostEntryFinal p depositId pf.1 (satAdd pf.1 (boostPoolFeeFrom pf.2 pct)),
    ?_, ?_⟩
  · rw [heq]
    exact alistLookup_alistInsert_self p.pendingBoosts depositId _
  · have hst := sumTotals_boostEntryFinal p depositId pf.1
      (satAdd pf.1 (boostPoolFeeFrom pf.2 pct)) hinv
      (providedAndFee_fst_le p amt hpf) (satAdd_le _ _) hnonempty
    have hsum := providedAndFee_sum_le p amt hpf
    have hbf := boostPoolFeeFrom_le pf.2 pct
    have hsat : satAdd pf.1 (boostPoolFeeFrom pf.2 pct)
        = pf.1 + boostPoolFeeFrom pf.2 pct := satAdd_eq (by omega)
    rw [hst, hsat]

/-- Claim C2 (witness): one booster with 1_000_000 chain units at 100 bps,
boosting 1000 chain units with a 50 % deduction: the recorded totals sum to
the provided 990000 scaled units plus the post-deduction fee. -/
theorem c2_boost_conservation_witness :
    ∃ entry, alistLookup ((provideFundsForBoosting
        (run (newPool 100) [Op.addFunds 1 1000000]) 2 1000 50).2.pendingBoosts) 2
        = some entry ∧
      sumTotals entry = 990000 + boostPoolFeeFrom 10000 50 :=
  @c2_boost_conservation (run (newPool 100) [Op.addFunds 1 1000000]) 2 1000 50
    (990000, 10000) (by decide) rfl rfl (by decide)

/-- Claim C2 (counterexample): in the witness scenario the provided amount
is 990000 scaled units but the recorded `Σ owed.total` is 995000 — larger by
the post-deduction pool fee of 5000 — so the claimed equality with
`provided` fails whenever the post-deduction fee is nonzero. -/
theorem c2_boost_conservation_counterexample :
    providedAndFee (run (newPool 100) [Op.addFunds 1 1000000]) 1000 = .ok (990000, 10000) ∧
    sumTotals ((alistLookup ((provideFundsForBoosting
        (run (newPool 100) [Op.addFunds 1 1000000]) 2 1000 50).2.pendingBoosts) 2).getD [])
        = 995000 := by
  constructor <;> rfl

/-- Claim C6 (amended): on success the returned fee is the full
pre-deduction fee. The recorded per-booster fees always satisfy
`boost_pool_fee ≤ Σ owed.fee + excess_contributed` (with `boost_pool_fee`
the post-deduction fee), and when every booster's rounded-up contribution is
at most its rounded-down to_receive the bound is an equality:
`Σ owed.fee + excess_contributed = boost_pool_fee`. Because each booster's
fee is the saturating subtraction `to_receive − contribution`, `Σ owed.fee`
can fall short of the post-deduction portion (by the contribution excess) or
strictly exceed it (e.g. under a 100 % deduction), so it does not equal the
post-deduction portion plus at most a rounding remainder as claimed. -/
theorem c6_network_fee_split (p : Pool) (depositId amt pct : Nat) {pf : Nat × Nat}
    (hinv : PoolInv p)
    (hpf : providedAndFee p amt = .ok pf)
    (hfresh : alistLookup p.pendingBoosts depositId = none)
    (hnonempty : p.amounts ≠ []) :
    (provideFundsForBoosting p depositId amt pct).1
        = .ok (intoChainAmount (satAdd pf.1 pf.2), intoChainAmount pf.2) ∧
    ∃ entry, alistLookup (provideFundsForBoosting p depositId amt pct).2.pendingBoosts
        depositId = some entry ∧
      boostPoolFeeFrom pf.2 pct ≤ sumFees entry + boostExcess p pf.1 ∧
      ((∀ ba ∈ p.amounts,
          boostContribution pf.1 p.available ba.2
            ≤ boostToReceive (satAdd pf.1 (boostPoolFeeFrom pf.2 pct)) p.available ba.2) →
        sumFees entry + boostExcess p pf.1 = boostPoolFeeFrom pf.2 pct) := by
  have heq := provideFunds_ok_eq p depositId amt pct hpf hfresh
  have hsum := providedAndFee_sum_le p amt hpf
  have hbfle := boostPoolFeeFrom_le pf.2 pct
  have hsat : satAdd pf.1 (boostPoolFeeFrom pf.2 pct)
      = pf.1 + boostPoolFeeFrom pf.2 pct := satAdd_eq (by omega)
  constructor
  · rw [heq]
  · refine ⟨boostEntryFinal p depositId pf.1 (satAdd pf.1 (boostPoolFeeFrom pf.2 pct)),
      ?_, ?_, ?_⟩
    · rw [heq]
      exact alistLookup_alistInsert_self p.pendingBoosts depositId _
    · have hge := sumFees_boostEntryFinal_ge p depositId pf.1
        (satAdd pf.1 (boostPoolFeeFrom pf.2 pct)) hinv
        (providedAndFee_fst_le p amt hpf) (satAdd_le _ _) hnonempty
      omega
    · intro hcr
      have hsf := sumFees_boostEntryFinal p depositId pf.1
        (satAdd pf.1 (boostPoolFeeFrom pf.2 pct)) hinv
        (providedAndFee_fst_le p amt hpf) (satAdd_le _ _) hnonempty hcr
      omega

/-- Claim C6 (witness): one booster with 1_000_000 chain units at 100 bps,
boosting 1000 chain units with a 30 % deduction: the returned fee is the
full 10000 scaled units (10 chain units), the recorded fees plus the
contribution excess are bounded below by the post-deduction fee of 7000, and
under the pointwise rounding condition they equal it. -/
theorem c6_network_fee_split_witness :
    (provideFundsForBoosting (run (newPool 100) [Op.addFunds 1 1000000]) 4 1000 30).1
        = .ok (intoChainAmount (satAdd 990000 10000), intoChainAmount 10000) ∧
    ∃ entry, alistLookup ((provideFundsForBoosting
        (run (newPool 100) [Op.addFunds 1 1000000]) 4 1000 30).2.pendingBoosts) 4
        = some entry ∧
      boostPoolFeeFrom 10000 30
          ≤ sumFees entry + boostExcess (run (newPool 100) [Op.addFunds 1 1000000]) 990000 ∧
      ((∀ ba ∈ (run (newPool 100) [Op.addFunds 1 1000000]).amounts,
          boostContribution 990000 (run (newPool 100) [Op.addFunds 1 1000000]).available ba.2
            ≤ boostToReceive (satAdd 990000 (boostPoolFeeFrom 10000 30))
                (run (newPool 100) [Op.addFunds 1 1000000]).available ba.2) →
        sumFees entry + boostExcess (run (newPool 100) [Op.addFunds 1 1000000]) 990000
          = boostPoolFeeFrom 10000 30) :=
  @c6_network_fee_split (run (newPool 100) [Op.addFunds 1 1000000]) 4 1000 30
    (990000, 10000) (by decide) rfl rfl (by decide)

/-- Claim C6 (counterexample): the recorded fees need not equal the
post-deduction fee. At 50 bps with two equal boosters the post-deduction fee
is 5 scaled units but `Σ owed.fee` is 4 (one unit is consumed by the
rounded-up contributions). Conversely, at 100 bps with seven boosters of one
unit each and a 100 % network-fee deduction the post-deduction fee is 0 yet
`Σ owed.fee` is 3 while the contribution excess is 4: the saturating
per-booster subtraction lets the recorded fees strictly EXCEED the
post-deduction portion, so the original claim fails in both directions. -/
theorem c6_network_fee_split_counterexample :
    (providedAndFee (run (newPool 50) [Op.addFunds 1 1, Op.addFunds 2 1]) 1
        = .ok (995, 5) ∧
     sumFees ((alistLookup ((provideFundsForBoosting
        (run (newPool 50) [Op.addFunds 1 1, Op.addFunds 2 1]) 9 1 0).2.pendingBoosts)
        9).getD []) = 4) ∧
    (providedAndFee c6Pool7 1 = .ok (990, 10) ∧
     boostPoolFeeFrom 10 100 = 0 ∧
     sumFees ((alistLookup ((provideFundsForBoosting c6Pool7 1 1 100).2.pendingBoosts)
        1).getD []) = 3 ∧
     boostExcess c6Pool7 990 = 4) := by
  refine ⟨⟨?_, ?_⟩, ?_, ?_, ?_, ?_⟩ <;> rfl
